import Mathlib

/-!
Verification of `mongodb-keyset-pagination` (`src/src/index.ts`).

Shallow embedding of the `KeySetPagination` class. JavaScript objects are
modelled as insertion-ordered association lists (`List (String × _)`);
`undefined` is modelled as `Option.none`; JavaScript exceptions are modelled
with `Except JsError`. Sort directions are modelled as `Int` (the source only
ever tests `=== -1` on them). External Node/bson libraries (the AES cipher,
`JSON.stringify`/`JSON.parse`) enter as explicit parameters carrying their
documented contracts; `base64url` and the extended-JSON value mapping are
implemented concretely.
-/

set_option autoImplicit false

namespace KeySet

/-- Errors thrown by the embedded JavaScript code. `typeError` stands for the
TypeErrors raised by property access on `null`/`undefined` and by passing
`undefined` where the Node crypto API requires a string; `syntaxError` for
`EJSON.parse` failures; `cryptoError` for cipher creation/finalization
failures (bad key, bad padding). -/
inductive JsError where
  | typeError
  | syntaxError
  | cryptoError
  deriving DecidableEq, Repr

/-- BSON-ish document values. `vObj` is a nested document (insertion-ordered
fields); `vDate` a date (milliseconds since epoch); `vOid` an ObjectId
(hex string). -/
inductive BVal where
  | vNull
  | vBool (b : Bool)
  | vInt (n : Int)
  | vStr (s : String)
  | vDate (ms : Int)
  | vOid (hex : String)
  | vArr (xs : List BVal)
  | vObj (fields : List (String × BVal))

/-- A MongoDB document: a JavaScript object, i.e. ordered fields. -/
abbrev BDoc := List (String × BVal)

/-- A JavaScript value position that may hold `undefined` (`none`). -/
abbrev JVal := Option BVal

/-- Sort specification: ordered field-path → direction mapping
(`KeySetSort` in the source; directions as `Int`, `-1` = descending). -/
abbrev KeySetSort := List (String × Int)

/-- `skipValues`: field path → extracted value. -/
abbrev SkipValues := List (String × BVal)

/-- First-occurrence lookup in a JavaScript object, `undefined` if absent. -/
def jsLookup {α : Type} (l : List (String × α)) (k : String) : Option α :=
  (l.find? (fun p => p.1 = k)).map (fun p => p.2)

/-- JavaScript object update `{...obj, [k]: v}` / computed-key assignment:
replaces the value in place when the key is present, appends otherwise. -/
def jsSet {α : Type} (l : List (String × α)) (k : String) (v : α) :
    List (String × α) :=
  if (jsLookup l k).isSome then
    l.map (fun p => if p.1 = k then (k, v) else p)
  else
    l ++ [(k, v)]

/-- Query-filter values: MongoDB filter objects are JavaScript objects whose
leaves are literal values (`val`, possibly `undefined`), nested operator /
sub-filter objects (`obj`) or arrays (`arr`, for `$or` / `$and` lists). -/
inductive Q where
  | val (v : JVal)
  | obj (fields : List (String × Q))
  | arr (xs : List Q)

/-- A caller / compiled filter: a JavaScript object of query values. -/
abbrev FilterObj := List (String × Q)

/-- JavaScript truthiness of a document value. Objects, arrays, dates and
ObjectIds are always truthy. -/
def bvalTruthy : BVal → Bool
  | .vNull => false
  | .vBool b => b
  | .vInt n => n ≠ 0
  | .vStr s => s ≠ ""
  | .vDate _ => true
  | .vOid _ => true
  | .vArr _ => true
  | .vObj _ => true

/-- Truthiness of a possibly-`undefined` query value (`filter._id`,
`paginatedFilter.$or`). -/
def jsTruthyQ : Option Q → Bool
  | none => false
  | some (.val none) => false
  | some (.val (some v)) => bvalTruthy v
  | some (.obj _) => true
  | some (.arr _) => true

/-- JavaScript property access `base[k]` on a document value:
throws a TypeError on `null`/`undefined`, looks up own fields of objects,
and yields `undefined` on every other value (primitives, dates, ObjectIds
have no own document fields; prototype methods are not document data). -/
def jsGetProp (base : JVal) (k : String) : Except JsError JVal :=
  match base with
  | none => .error .typeError
  | some .vNull => .error .typeError
  | some (.vObj fs) => .ok (jsLookup fs k)
  | some _ => .ok none

/-- `value ?? null` on a possibly-`undefined` value. -/
def jsNullCoalesce (v : JVal) : BVal := v.getD .vNull

/-- `String.prototype.split('.')` at the character-list level (a JavaScript
string is a character sequence; `String.splitOn` does not reduce in the
kernel, so splitting is implemented structurally). -/
def splitOnDotChars : List Char → List (List Char)
  | [] => [[]]
  | c :: rest =>
      let r := splitOnDotChars rest
      if c = '.' then [] :: r
      else
        match r with
        | [] => [[c]]
        | h :: t => (c :: h) :: t

/-- `key.split('.')` on a Lean `String`. -/
def jsSplitDot (key : String) : List String :=
  (splitOnDotChars key.data).map String.mk

/-! ## `getSortQuery` (source lines 259–264)

```ts
private getSortQuery(sort: KeySetSort = {}): KeySetSort {
  return { ...sort, _id: sort._id === -1 ? -1 : 1 };
}
``` -/

def getSortQuery (sort : KeySetSort) : KeySetSort :=
  jsSet sort "_id" (if jsLookup sort "_id" = some (-1) then -1 else 1)

/-! ## `getDocumentSkipValue` (source lines 277–288) and
`getSkipValues` (lines 266–275)

```ts
private getDocumentSkipValue(key: string, document: Document): SkipValue {
  const keyPartList = key?.split('.') ?? [];
  if (keyPartList.length <= 1) { return document[keyPartList[0]]; }
  return this.getDocumentSkipValue(
    keyPartList.slice(1, keyPartList.length).join('.'),
    document[keyPartList[0]]);
}
```

The recursive call re-joins the tail segments with `'.'` and the callee
immediately re-splits them; since segments produced by `split('.')` contain
no `'.'`, re-splitting the re-joined tail yields exactly the tail, so the
embedding recurses on the segment list directly. An empty segment list
(`keyPartList[0] === undefined`) would access property `"undefined"`
(JavaScript key coercion). -/

def goSkipValue : List String → JVal → Except JsError JVal
  | [], doc => jsGetProp doc "undefined"
  | [k], doc => jsGetProp doc k
  | k :: k' :: rest, doc => do
      let v ← jsGetProp doc k
      goSkipValue (k' :: rest) v

def getDocumentSkipValue (key : String) (document : JVal) :
    Except JsError JVal :=
  goSkipValue (jsSplitDot key) document

/-- ```ts
private getSkipValues(sort: KeySetSort, document: Document): SkipValues {
  return Object.keys(sort).reduce((obj, sortKey) => ({
    ...obj, [sortKey]: this.getDocumentSkipValue(sortKey, document) ?? null,
  }), {});
}
``` -/
def getSkipValues (sort : KeySetSort) (document : BDoc) :
    Except JsError SkipValues :=
  sort.foldlM
    (fun obj kv => do
      let v ← getDocumentSkipValue kv.1 (some (.vObj document))
      pure (jsSet obj kv.1 (jsNullCoalesce v)))
    []

/-! ## Skip content -/

/-- A well-formed `SkipContent` value as produced by `getSkipContent`
(source lines 23–27, 83–87). -/
structure SkipContentOut where
  skipValues : SkipValues
  limit : Int
  sort : KeySetSort

/-- A `SkipContent`-shaped JavaScript object as *received* (decoded token or
caller-supplied object): each property may be missing (`none`). -/
structure RawSkipContent where
  sort : Option KeySetSort
  limit : Option Int
  skipValues : Option SkipValues

/-- `skipContent.skipValues[k]`: throws a TypeError when `skipValues` is
missing. -/
def svGet (sv : Option SkipValues) (k : String) : Except JsError JVal :=
  match sv with
  | none => .error .typeError
  | some l => .ok (jsLookup l k)

/-! ## `getFilterQuery` (source lines 133–253) -/

/-- `Array.prototype.findIndex` (first index satisfying the predicate). -/
def jsFindIdx (p : String → Bool) : List String → Option Nat
  | [] => none
  | a :: l => if p a then some 0 else (jsFindIdx p l).map (· + 1)

/-- `Array.prototype.findIndex(key => key === target)`: `-1` when the target
is `undefined` or not present. -/
def jsFindIndexEq (l : List String) (target : Option String) : Int :=
  match target with
  | none => -1
  | some s =>
      match jsFindIdx (fun k => k = s) l with
      | some i => (i : Int)
      | none => -1

/-- JavaScript array indexing `l[i]`: `undefined` out of bounds. -/
def jsIndexGet (l : List String) (i : Int) : Option String :=
  if i < 0 then none else l[i.toNat]?

/-- JavaScript computed property key: `obj[k]` with `k === undefined`
coerces the key to the string `"undefined"`. -/
def jsKeyStr (k : Option String) : String := k.getD "undefined"

/-- `skipContent.skipValues[key]` with a possibly-`undefined` key. -/
def svGetK (sv : Option SkipValues) (k : Option String) : Except JsError JVal :=
  svGet sv (jsKeyStr k)

/-- `typeof v === 'undefined' || v === null`. -/
def isNullish : JVal → Bool
  | none => true
  | some .vNull => true
  | some _ => false

/-- JavaScript truthiness of a possibly-`undefined` string. -/
def jsTruthyStr : Option String → Bool
  | none => false
  | some s => s ≠ ""

/-- The range operator picked from the sort direction:
`sortObj[k] === -1 ? '$lt' : '$gt'`. -/
def dirOp (sortObj : KeySetSort) (k : String) : String :=
  if jsLookup sortObj k = some (-1) then "$lt" else "$gt"

/-- The `{$exists: true, $ne: null}` clause body (source lines 195–199). -/
def existsNeNull : Q :=
  Q.obj [("$exists", Q.val (some (.vBool true))), ("$ne", Q.val (some .vNull))]

/-- The body of one invocation of the inner closure `getQueryOrList` of
`getFilterQuery` (source lines 173–235), translated clause by clause for a
non-empty `currentSortKeyList = k0 :: restList`. The value of the recursive
call `getQueryOrList(currentSortKeyList.slice(1))` is passed in as `nested`
(it is consumed only in the branch where the source makes that call; being a
pure value, passing it eagerly is extensionally identical). -/
def getQueryOrListBody (sortObjKeyList : List String) (sortObj : KeySetSort)
    (skipValues : Option SkipValues) (k0 : String) (restList : List String)
    (nested : Except JsError (List FilterObj)) :
    Except JsError (List FilterObj) := do
  let currentKeyIndex := jsFindIndexEq sortObjKeyList (some k0)
  let nextKeyIndex := jsFindIndexEq sortObjKeyList restList.head?
  let currentKey := jsIndexGet sortObjKeyList currentKeyIndex
  let nextKey := jsIndexGet sortObjKeyList nextKeyIndex
  let firstKey : Option String := some k0
  let lastKey := jsIndexGet sortObjKeyList ((sortObjKeyList.length : Int) - 1)
  let currentKeyValue ← svGetK skipValues currentKey
  let nextKeyValue ← svGetK skipValues nextKey
  let orList₁ : List FilterObj :=
    if currentKey = firstKey then
      if isNullish currentKeyValue then
        if jsLookup sortObj (jsKeyStr currentKey) ≠ some (-1) then
          [[(jsKeyStr currentKey, existsNeNull)]]
        else []
      else
        [[(jsKeyStr currentKey,
           Q.obj [(dirOp sortObj (jsKeyStr currentKey),
                   Q.val (some (jsNullCoalesce currentKeyValue)))])]]
    else []
  if jsTruthyStr nextKey then do
    let recursiveObj₀ : FilterObj :=
      [(jsKeyStr currentKey, Q.val (some (jsNullCoalesce currentKeyValue)))]
    let recursiveObj ←
      if nextKey ≠ lastKey then do
        let nestedList ← nested
        pure (jsSet recursiveObj₀ "$or" (Q.arr (nestedList.map Q.obj)))
      else
        pure (jsSet recursiveObj₀ (jsKeyStr nextKey)
          (Q.obj [(dirOp sortObj (jsKeyStr nextKey),
                   Q.val (some (jsNullCoalesce nextKeyValue)))]))
    pure (orList₁ ++ [recursiveObj])
  else
    pure orList₁

/-- The inner closure `getQueryOrList` of `getFilterQuery`
(source lines 173–235). The source recurses on
`currentSortKeyList.slice(1)`; the embedding pattern-matches the list so the
recursion is structural. The `[]` case is the same body specialized to an
empty `currentSortKeyList` (every `?.[…]` index is `undefined`, so
`if (nextKey)` fails and no recursive call happens); it is unreachable from
`getFilterQuery`'s entry call. -/
def getQueryOrList (sortObjKeyList : List String) (sortObj : KeySetSort)
    (skipValues : Option SkipValues) :
    List String → Except JsError (List FilterObj)
  | [] => do
      let currentKey : Option String :=
        jsIndexGet sortObjKeyList (jsFindIndexEq sortObjKeyList none)
      let firstKey : Option String := none
      let currentKeyValue ← svGetK skipValues currentKey
      let _nextKeyValue ← svGetK skipValues none
      pure <|
        if currentKey = firstKey then
          if isNullish currentKeyValue then
            if jsLookup sortObj (jsKeyStr currentKey) ≠ some (-1) then
              [[(jsKeyStr currentKey, existsNeNull)]]
            else []
          else
            [[(jsKeyStr currentKey,
               Q.obj [(dirOp sortObj (jsKeyStr currentKey),
                       Q.val (some (jsNullCoalesce currentKeyValue)))])]]
        else []
  | k0 :: restList =>
      getQueryOrListBody sortObjKeyList sortObj skipValues k0 restList
        (getQueryOrList sortObjKeyList sortObj skipValues restList)

/-- ```ts
private getFilterQuery(filter, skipContent) { ... }
```
(source lines 133–253). `{...filter}` is a fresh shallow copy; in the pure
embedding it is the same association list. -/
def getFilterQuery (filter : FilterObj) (skipContent : Option RawSkipContent) :
    Except JsError FilterObj :=
  match skipContent with
  | none => .ok filter
  | some rc => do
      -- `Object.entries(sortObj)` throws when `skipContent.sort` is missing.
      let sortObj ← match rc.sort with
        | none => .error .typeError
        | some s => pure s
      let sortObjWithoutId := sortObj.foldl
        (fun obj kv => if kv.1 = "_id" then obj else jsSet obj kv.1 kv.2)
        ([] : KeySetSort)
      let paginatedFilter := filter
      if sortObjWithoutId.isEmpty then
        if jsTruthyQ (jsLookup filter "_id") then pure paginatedFilter
        else do
          let idVal ← svGet rc.skipValues "_id"
          pure (jsSet paginatedFilter "_id"
            (Q.obj [(if jsLookup sortObj "_id" = some (-1) then "$lt" else "$gt",
                     Q.val idVal)]))
      else
        let sortObjKeyList := sortObjWithoutId.map Prod.fst ++ ["_id"]
        let orList ← getQueryOrList sortObjKeyList sortObj rc.skipValues sortObjKeyList
        let paginationQuery : FilterObj := [("$or", Q.arr (orList.map Q.obj))]
        if jsTruthyQ (jsLookup paginatedFilter "$or") then
          pure [("$and", Q.arr [Q.obj paginatedFilter, Q.obj paginationQuery])]
        else
          pure (paginationQuery.foldl (fun acc kv => jsSet acc kv.1 kv.2) paginatedFilter)

/-! ## Spec-side descriptions of the tie-break disjunction

These two definitions follow the *specification's words* (claims C1/C2,
spec §4.2), not the source; the refinement theorems compare the source
translation `getQueryOrList` against them. -/

/-- The resume-point value of a key, with absent normalized to `null`. -/
def svval (sv : SkipValues) (k : String) : BVal := jsNullCoalesce (jsLookup sv k)

/-- Modelled from the spec (claim C1): the alternative list for keys
`[ki, k(i+1), …, kn]` is a strict-range clause on `ki` (`$lt` when `ki`'s
direction is `-1`, else `$gt`, applied to `ki`'s resume-point value),
followed by a clause asserting `ki` equals its resume-point value conjoined
with either a nested `$or` of the alternatives for `[k(i+1)..kn]` (when
`k(i+1)` is not the last key) or a direct equality-plus-strict-range clause
on `k(i+1)` (when `k(i+1)` is the last key). -/
def specAltStrict (sortObj : KeySetSort) (sv : SkipValues) :
    List String → List FilterObj
  | k1 :: k2 :: rest =>
      [[(k1, Q.obj [(dirOp sortObj k1, Q.val (some (svval sv k1)))])]]
      ++ [if rest.isEmpty then
            [(k1, Q.val (some (svval sv k1))),
             (k2, Q.obj [(dirOp sortObj k2, Q.val (some (svval sv k2)))])]
          else
            [(k1, Q.val (some (svval sv k1))),
             ("$or", Q.arr ((specAltStrict sortObj sv (k2 :: rest)).map Q.obj))]]
  | _ => []

/-- Modelled from the spec (claims C1/C2): the head clause of an alternative
list for a key — a strict-range clause on the key in the sort's direction,
except that a null/absent resume-point value replaces it by
`{$exists: true, $ne: null}` for an ascending key and drops it for a
descending key. -/
def specHead (sortObj : KeySetSort) (sv : SkipValues) (k : String) :
    List FilterObj :=
  if isNullish (jsLookup sv k) then
    if jsLookup sortObj k = some (-1) then []
    else [[(k, existsNeNull)]]
  else
    [[(k, Q.obj [(dirOp sortObj k, Q.val (some (svval sv k)))])]]

/-- Modelled from the spec (claim C2 together with C1's recursion): the
recursive construction, with the null/absent-value rules of spec §4.2 — a
key whose resume-point value is null or absent is compared for equality
against literal `null`; its strict-range clause is replaced by
`{$exists: true, $ne: null}` when the key ascends and omitted entirely when
it descends. The equality clause is extended with the follow-up constraint
by object assignment (`jsSet`), as the conjunction is an object literal. -/
def specAltNullAware (sortObj : KeySetSort) (sv : SkipValues) :
    List String → List FilterObj
  | k1 :: k2 :: rest =>
      specHead sortObj sv k1
      ++ [if rest.isEmpty then
            jsSet [(k1, Q.val (some (svval sv k1)))] k2
              (Q.obj [(dirOp sortObj k2, Q.val (some (svval sv k2)))])
          else
            jsSet [(k1, Q.val (some (svval sv k1)))] "$or"
              (Q.arr ((specAltNullAware sortObj sv (k2 :: rest)).map Q.obj))]
  | _ => []

/-- Modelled from the spec (claim C6): value extraction that traverses
dot-path segments through nested objects but treats semantically atomic,
object-shaped values — dates and unique identifiers — as terminal leaves
rather than descending into them; missing values are left to normalize to
null. -/
def specTerminalTraverse : List String → JVal → JVal
  | [], v => v
  | _ :: _, some (.vDate ms) => some (.vDate ms)
  | _ :: _, some (.vOid h) => some (.vOid h)
  | k :: rest, some (.vObj fs) => specTerminalTraverse rest (jsLookup fs k)
  | _ :: _, v => v

/-- Modelled from the spec (claim C6): per-key extraction from a document. -/
def specTerminalExtract (key : String) (document : BDoc) : JVal :=
  specTerminalTraverse (jsSplitDot key) (some (.vObj document))

/-! ## base64url (`Buffer.prototype.toString('base64url')` /
`Buffer.from(·, 'base64url')`), implemented concretely over byte lists. -/

def b64Alphabet : List Char :=
  "ABCDEFGHIJKLMNOPQRSTUVWXYZabcdefghijklmnopqrstuvwxyz0123456789-_".toList

def b64Char (n : Nat) : Char := b64Alphabet.getD n 'A'

def b64CharDecode (c : Char) : Option Nat := b64Alphabet.findIdx? (fun a => a = c)

/-- base64url encoding (unpadded, per Node's `base64url`): 3 bytes → 4
characters, 1 or 2 trailing bytes → 2 or 3 characters. -/
def b64Encode : List Nat → List Char
  | [] => []
  | [b1] => [b64Char (b1 / 4), b64Char (b1 % 4 * 16)]
  | [b1, b2] =>
      [b64Char (b1 / 4), b64Char (b1 % 4 * 16 + b2 / 16), b64Char (b2 % 16 * 4)]
  | b1 :: b2 :: b3 :: rest =>
      b64Char (b1 / 4) :: b64Char (b1 % 4 * 16 + b2 / 16) ::
      b64Char (b2 % 16 * 4 + b3 / 64) :: b64Char (b3 % 64) :: b64Encode rest

/-- Strict base64url decoding; `none` on malformed input. -/
def b64Decode : List Char → Option (List Nat)
  | [] => some []
  | [c1, c2] => do
      let n1 ← b64CharDecode c1
      let n2 ← b64CharDecode c2
      some [n1 * 4 + n2 / 16]
  | [c1, c2, c3] => do
      let n1 ← b64CharDecode c1
      let n2 ← b64CharDecode c2
      let n3 ← b64CharDecode c3
      some [n1 * 4 + n2 / 16, n2 % 16 * 16 + n3 / 4]
  | c1 :: c2 :: c3 :: c4 :: rest => do
      let n1 ← b64CharDecode c1
      let n2 ← b64CharDecode c2
      let n3 ← b64CharDecode c3
      let n4 ← b64CharDecode c4
      let r ← b64Decode rest
      some ([n1 * 4 + n2 / 16, n2 % 16 * 16 + n3 / 4, n3 % 4 * 64 + n4] ++ r)
  | [_] => none

/-- Node's `Buffer.from(s, 'base64url')` never throws; garbage input decodes
leniently. The lenient wrapper is what the source's decrypt path uses. -/
def b64DecodeLenient (cs : List Char) : List Nat := (b64Decode cs).getD []


/-! ## Extended JSON (`EJSON.stringify` / `EJSON.parse` from `bson`)

The value-level mapping (which types survive the round trip) is implemented
concretely; dates are serialized in the canonical
`{"$date": {"$numberLong": …}}` shape (the relaxed ISO-string shape differs
only in the timestamp's textual encoding), with the numeric text modelled as
a JSON number. Generic JSON text parsing is an external library concern and
enters as a parameter with its round-trip contract. -/

inductive Json where
  | null
  | bool (b : Bool)
  | num (n : Int)
  | str (s : String)
  | arr (xs : List Json)
  | obj (fields : List (String × Json))

mutual

/-- EJSON serialization of a document value. -/
def ejsonVal : BVal → Json
  | .vNull => .null
  | .vBool b => .bool b
  | .vInt n => .num n
  | .vStr s => .str s
  | .vDate ms => .obj [("$date", .obj [("$numberLong", .num ms)])]
  | .vOid h => .obj [("$oid", .str h)]
  | .vArr xs => .arr (ejsonValList xs)
  | .vObj fs => .obj (ejsonValFields fs)

def ejsonValList : List BVal → List Json
  | [] => []
  | x :: xs => ejsonVal x :: ejsonValList xs

def ejsonValFields : List (String × BVal) → List (String × Json)
  | [] => []
  | (k, v) :: fs => (k, ejsonVal v) :: ejsonValFields fs

end

mutual

/-- EJSON interpretation of a parsed JSON value back into a document value. -/
def ejsonValParse : Json → BVal
  | .null => .vNull
  | .bool b => .vBool b
  | .num n => .vInt n
  | .str s => .vStr s
  | .arr xs => .vArr (ejsonValParseList xs)
  | .obj [("$date", .obj [("$numberLong", .num ms)])] => .vDate ms
  | .obj [("$oid", .str h)] => .vOid h
  | .obj fs => .vObj (ejsonValParseFields fs)

def ejsonValParseList : List Json → List BVal
  | [] => []
  | x :: xs => ejsonValParse x :: ejsonValParseList xs

def ejsonValParseFields : List (String × Json) → List (String × BVal)
  | [] => []
  | (k, v) :: fs => (k, ejsonValParse v) :: ejsonValParseFields fs

end

/-- `EJSON.stringify(skipContent)`'s JSON tree: the object literal built by
`getSkipContent` has fields in the order `skipValues`, `limit`, `sort`
(source lines 83–87). -/
def ejsonContent (sc : SkipContentOut) : Json :=
  .obj [("skipValues", .obj (ejsonValFields sc.skipValues)),
        ("limit", .num sc.limit),
        ("sort", .obj (sc.sort.map (fun p => (p.1, Json.num p.2))))]

/-- Interpretation of a parsed token payload as a (possibly malformed)
`SkipContent` object: fields of unexpected shape behave as missing. -/
def jsonToSortFields : List (String × Json) → Option KeySetSort
  | [] => some []
  | (k, v) :: rest =>
      match v with
      | .num n => (jsonToSortFields rest).map (fun t => (k, n) :: t)
      | _ => none

def jsonToSort (j : Json) : Option KeySetSort :=
  match j with
  | .obj fs => jsonToSortFields fs
  | _ => none

def jsonToSV (j : Json) : Option SkipValues :=
  match j with
  | .obj fs => some (ejsonValParseFields fs)
  | _ => none

def jsonToRaw (j : Json) : RawSkipContent :=
  match j with
  | .obj fs =>
      { sort := (jsLookup fs "sort").bind jsonToSort
        limit := (jsLookup fs "limit").bind (fun l =>
          match l with
          | .num n => some n
          | _ => none)
        skipValues := (jsLookup fs "skipValues").bind jsonToSV }
  | _ => ⟨none, none, none⟩

mutual

/-- A plain JSON renderer (string escaping omitted: the parse side is a
parameter carrying the library's round-trip contract, so only the tree
structure matters here). -/
def jsonRender : Json → String
  | .null => "null"
  | .bool true => "true"
  | .bool false => "false"
  | .num n => toString n
  | .str s => "\"" ++ s ++ "\""
  | .arr xs => "[" ++ jsonRenderList xs ++ "]"
  | .obj fs => "\x7b" ++ jsonRenderFields fs ++ "\x7d"

def jsonRenderList : List Json → String
  | [] => ""
  | [x] => jsonRender x
  | x :: y :: xs => jsonRender x ++ "," ++ jsonRenderList (y :: xs)

def jsonRenderFields : List (String × Json) → String
  | [] => ""
  | [(k, v)] => "\"" ++ k ++ "\":" ++ jsonRender v
  | (k, v) :: p :: fs =>
      "\"" ++ k ++ "\":" ++ jsonRender v ++ "," ++ jsonRenderFields (p :: fs)

end

/-! ## Encryption (`node:crypto`)

The AES block cipher is external; it enters as an explicit model with the
pipeline's shape: `(algorithm, key, iv, utf8-plaintext) → ciphertext bytes`
and back. A missing/invalid key or algorithm is the model's `Except.error`.
`crypto.randomBytes(16)` is modelled by passing the drawn IV explicitly. -/

structure CryptoModel where
  enc : Option String → Option String → List Nat → String → Except JsError (List Nat)
  dec : Option String → Option String → List Nat → List Nat → Except JsError String

/-- `encryptSkipContent` (source lines 103–117). When `getSkipContent`
returned `undefined`, `EJSON.stringify(undefined)` is `undefined` and
`cipher.update(undefined, …)` throws a TypeError. -/
def encryptSkipContent (crypto : CryptoModel) (algorithm key : Option String)
    (iv : List Nat) (sc : Option SkipContentOut) : Except JsError String :=
  match sc with
  | none => .error .typeError
  | some c => do
      let ct ← crypto.enc algorithm key iv (jsonRender (ejsonContent c))
      pure (String.mk (b64Encode iv) ++ "." ++ String.mk (b64Encode ct))

/-- `decryptSkipContent` (source lines 119–131). `split('.')` uses only the
first two parts; a token with no `'.'` makes `encryptedParts[1]` `undefined`
and `decipher.update(undefined, …)` throws. -/
def decryptSkipContent (crypto : CryptoModel) (jsonParse : String → Option Json)
    (algorithm key : Option String) (tok : String) :
    Except JsError RawSkipContent :=
  let parts := splitOnDotChars tok.data
  let iv := b64DecodeLenient (parts.headD [])
  match parts[1]? with
  | none => .error .typeError
  | some ctChars => do
      let ct := b64DecodeLenient ctChars
      let plain ← crypto.dec algorithm key iv ct
      match jsonParse plain with
      | none => .error .syntaxError
      | some j => pure (jsonToRaw j)

/-! ## `getPaginatedQuery` (source lines 47–101) -/

structure KSPOptions where
  defaultLimit : Option Int := none
  encryptionKey : Option String := none
  encryptionAlgorithm : Option String := none

/-- The constructor's option merge
`{ defaultLimit: 10, encryptionAlgorithm: 'aes-192-cbc', ...options }`. -/
def mkOptions (o : KSPOptions) : KSPOptions :=
  { defaultLimit := some (o.defaultLimit.getD 10)
    encryptionAlgorithm := some (o.encryptionAlgorithm.getD "aes-192-cbc")
    encryptionKey := o.encryptionKey }

structure KeySetFindOptions where
  limit : Option Int := none
  sort : Option KeySetSort := none

/-- The `skipContent` argument: an encrypted token string or a structured
(possibly malformed) `SkipContent` object. -/
inductive SkipArg where
  | tok (s : String)
  | content (rc : RawSkipContent)

/-- The closure returned as `getSkipContent` (source lines 77–88): issues a
resume point iff the page is non-empty and not shorter than the limit. -/
def getSkipContentImpl (paginatedLimit : Int) (paginatedSort : KeySetSort)
    (documentList : List BDoc) : Except JsError (Option SkipContentOut) :=
  if documentList.length = 0 ∨ (documentList.length : Int) < paginatedLimit then
    pure none
  else do
    let lastDocument := documentList.getLastD []
    let sv ← getSkipValues paginatedSort lastDocument
    pure (some ⟨sv, paginatedLimit, paginatedSort⟩)

/-- The closure returned as `getSkipToken` (source lines 90–92):
`encryptSkipContent(getSkipContent(documentList))`, with the freshly drawn
IV passed explicitly. -/
def getSkipTokenImpl (crypto : CryptoModel) (algorithm key : Option String)
    (iv : List Nat) (paginatedLimit : Int) (paginatedSort : KeySetSort)
    (documentList : List BDoc) : Except JsError String := do
  let sc ← getSkipContentImpl paginatedLimit paginatedSort documentList
  encryptSkipContent crypto algorithm key iv sc

structure PaginatedQueryModel where
  paginatedFilter : FilterObj
  paginatedSort : KeySetSort
  paginatedLimit : Int
  getSkipContentFn : List BDoc → Except JsError (Option SkipContentOut)
  getSkipTokenFn : List Nat → List BDoc → Except JsError String

/-- `getPaginatedQuery` (source lines 58–101). `cfg` is the instance's
(already constructor-merged) `this.options`. -/
def getPaginatedQuery (crypto : CryptoModel) (jsonParse : String → Option Json)
    (cfg : KSPOptions) (filter : FilterObj) (skipContent : Option SkipArg)
    (options : KeySetFindOptions) : Except JsError PaginatedQueryModel := do
  let skipTokenContent : Option RawSkipContent ←
    match skipContent with
    | some (.tok s) => do
        let rc ← decryptSkipContent crypto jsonParse
          cfg.encryptionAlgorithm cfg.encryptionKey s
        pure (some rc)
    | some (.content rc) => pure (some rc)
    | none => pure none
  let paginatedLimit : Int :=
    options.limit.getD
      ((skipTokenContent.bind RawSkipContent.limit).getD (cfg.defaultLimit.getD 10))
  let paginatedSort : KeySetSort :=
    (skipTokenContent.bind RawSkipContent.sort).getD
      (getSortQuery (options.sort.getD []))
  let paginatedFilter ← getFilterQuery filter skipTokenContent
  pure { paginatedFilter := paginatedFilter
         paginatedSort := paginatedSort
         paginatedLimit := paginatedLimit
         getSkipContentFn := fun docs =>
           getSkipContentImpl paginatedLimit paginatedSort docs
         getSkipTokenFn := fun iv docs =>
           getSkipTokenImpl crypto cfg.encryptionAlgorithm cfg.encryptionKey
             iv paginatedLimit paginatedSort docs }

/-! ## A document-store evaluation model

The query filter's *meaning* is owned by MongoDB, an external collaborator
(spec §1); the following evaluator is modelled from the spec's description
of the find contract, restricted to the fragment the compiler emits:
equality and `$gt`/`$lt`/`$exists`/`$ne` comparisons (type-bracketed, as in
BSON: comparison operators only relate values in the same type bracket) and
`$or` disjunctions, with dotted paths resolved through nested documents.
Array/object-valued sort fields are out of scope (spec §9). -/

/-- Scalar (non-container) document values: the value types a resume point
is designed to carry. -/
def scalarSkipVal : BVal → Bool
  | .vArr _ => false
  | .vObj _ => false
  | _ => true

/-- BSON type-bracket rank (each rank corresponds to one constructor). -/
def bsonTypeRank : BVal → Nat
  | .vNull => 0
  | .vInt _ => 1
  | .vStr _ => 2
  | .vObj _ => 3
  | .vArr _ => 4
  | .vOid _ => 5
  | .vBool _ => 6
  | .vDate _ => 7

def boolLt : Bool → Bool → Bool
  | false, true => true
  | _, _ => false

/-- Equality of same-bracket scalar values (containers unsupported). -/
def scalarEq : BVal → BVal → Bool
  | .vNull, .vNull => true
  | .vInt a, .vInt b => a = b
  | .vStr a, .vStr b => a = b
  | .vBool a, .vBool b => a = b
  | .vDate a, .vDate b => a = b
  | .vOid a, .vOid b => a = b
  | _, _ => false

/-- Strict order of same-bracket scalar values (containers unsupported). -/
def scalarLt : BVal → BVal → Bool
  | .vInt a, .vInt b => a < b
  | .vStr a, .vStr b => a < b
  | .vBool a, .vBool b => boolLt a b
  | .vDate a, .vDate b => a < b
  | .vOid a, .vOid b => a < b
  | _, _ => false

/-- Total BSON comparison used by sorting: by type bracket first, then
within the bracket. -/
def bsonCmp (a b : BVal) : Ordering :=
  if bsonTypeRank a < bsonTypeRank b then .lt
  else if bsonTypeRank b < bsonTypeRank a then .gt
  else if scalarEq a b then .eq
  else if scalarLt a b then .lt
  else .gt

/-- Resolution of a dot-path against a document (no array semantics). -/
def docPathVal (doc : BDoc) : List String → JVal
  | [] => none
  | [k] => jsLookup doc k
  | k :: k' :: rest =>
      match jsLookup doc k with
      | some (.vObj sub) => docPathVal sub (k' :: rest)
      | _ => none

def docKeyVal (doc : BDoc) (key : String) : JVal :=
  docPathVal doc (jsSplitDot key)

/-- Equality predicate of a filter literal: `null` also matches a missing
field. -/
def eqMatch (dv : JVal) (w : BVal) : Bool :=
  match w with
  | .vNull =>
      match dv with
      | none => true
      | some .vNull => true
      | some _ => false
  | _ =>
      match dv with
      | some x => scalarEq x w
      | none => false

/-- One comparison operator applied to a resolved field value. -/
def opMatch (dv : JVal) (op : String) (qv : Q) : Bool :=
  match op, qv with
  | "$gt", Q.val (some w) =>
      match dv with
      | some x => bsonTypeRank x = bsonTypeRank w && bsonCmp x w = .gt
      | none => false
  | "$lt", Q.val (some w) =>
      match dv with
      | some x => bsonTypeRank x = bsonTypeRank w && bsonCmp x w = .lt
      | none => false
  | "$exists", Q.val (some (.vBool true)) => dv.isSome
  | "$ne", Q.val (some .vNull) =>
      match dv with
      | none => false
      | some .vNull => false
      | some _ => true
  | _, _ => false

/-- An operator object applied to a resolved field value. -/
def matchOps (dv : JVal) : List (String × Q) → Bool
  | [] => true
  | (op, qv) :: rest => opMatch dv op qv && matchOps dv rest

mutual

/-- One top-level filter entry. -/
def matchEntry (doc : BDoc) (k : String) (q : Q) : Bool :=
  if k = "$or" then
    match q with
    | Q.arr xs => matchOrList doc xs
    | _ => false
  else
    match q with
    | Q.val (some w) => eqMatch (docKeyVal doc k) w
    | Q.obj ops => matchOps (docKeyVal doc k) ops
    | _ => false

def matchOrList (doc : BDoc) : List Q → Bool
  | [] => false
  | x :: xs =>
      (match x with
       | Q.obj f => matchFilter doc f
       | _ => false) || matchOrList doc xs

def matchFilter (doc : BDoc) : FilterObj → Bool
  | [] => true
  | (k, q) :: rest => matchEntry doc k q && matchFilter doc rest

end

/-- "Document `doc` sorts strictly after the resume point" under the sort's
key order: lexicographic on the keys, with missing document values
normalized to `null` (BSON sorts treat missing as null) and each key's
direction applied. -/
def seekAfter (sortObj : KeySetSort) (sv : SkipValues) (doc : BDoc) :
    List String → Bool
  | [] => false
  | k :: rest =>
      let ord := bsonCmp (jsNullCoalesce (docKeyVal doc k)) (svval sv k)
      if (if jsLookup sortObj k = some (-1) then ord = .lt else ord = .gt)
      then true
      else if ord = .eq then seekAfter sortObj sv doc rest
      else false

/-! ## Concrete library instances for closed statements

The cipher is external; closed theorems (witnesses, counterexamples)
instantiate it with executable stand-ins satisfying the library contract at
the needed points. -/

/-- A cipher stand-in whose round trip is the identity on the payload. -/
def cryptoOk : CryptoModel where
  enc := fun _ _ _ s => .ok (s.data.map Char.toNat)
  dec := fun _ _ _ b => .ok (String.mk (b.map Char.ofNat))

/-- A cipher stand-in that always fails (wrong key / corrupted data). -/
def cryptoFail : CryptoModel where
  enc := fun _ _ _ _ => .error .cryptoError
  dec := fun _ _ _ _ => .error .cryptoError

/-- A JSON parser stand-in recognizing exactly one rendered tree. -/
def jsonParseOf (j : Json) : String → Option Json :=
  fun s => if s = jsonRender j then some j else none

/-- A JSON parser stand-in that always fails. -/
def jsonParseNone : String → Option Json := fun _ => none

/-- The raw (received) shape of a well-formed skip content. -/
def rawOf (sc : SkipContentOut) : RawSkipContent :=
  ⟨some sc.sort, some sc.limit, some sc.skipValues⟩

/-- A concrete skip content (number, date, string and ObjectId values) used
by closed statements. -/
def demoContent : SkipContentOut :=
  ⟨[("year", .vInt 1915), ("released", .vDate 86400),
    ("title", .vStr "Regeneration"), ("_id", .vOid "5a9427648b0b")],
   2,
   [("year", 1), ("released", 1), ("title", 1), ("_id", 1)]⟩

/-- The ciphertext `cryptoOk` produces for `demoContent`'s plaintext. -/
def cryptoOkCt : List Nat :=
  (jsonRender (ejsonContent demoContent)).data.map Char.toNat

/-! # Helper lemmas -/

theorem jsLookup_cons {α : Type} (a : String × α) (l : List (String × α))
    (k : String) :
    jsLookup (a :: l) k = if a.1 = k then some a.2 else jsLookup l k := by
  by_cases h : a.1 = k
  · simp [jsLookup, List.find?_cons_of_pos, h]
  · simp [jsLookup, List.find?_cons_of_neg, h]

theorem jsLookup_nil {α : Type} (k : String) :
    jsLookup ([] : List (String × α)) k = none := rfl

theorem jsLookup_append {α : Type} (l₁ l₂ : List (String × α)) (k : String) :
    jsLookup (l₁ ++ l₂) k = (jsLookup l₁ k).or (jsLookup l₂ k) := by
  rcases h : List.find? (fun p => p.1 = k) l₁ with _ | p <;>
    simp [jsLookup, List.find?_append, h]

theorem jsSet_of_lookup_none {α : Type} (l : List (String × α)) (k : String)
    (v : α) (h : jsLookup l k = none) : jsSet l k v = l ++ [(k, v)] := by
  simp [jsSet, h]

theorem jsSet_fst_eq {α : Type} (l : List (String × α)) (k : String) (v : α)
    (h : (jsLookup l k).isSome) :
    jsSet l k v = l.map (fun p => if p.1 = k then (k, v) else p) := by
  simp [jsSet, h]

theorem jsLookup_map_replace_self {α : Type} (l : List (String × α))
    (k : String) (v : α) :
    jsLookup (l.map (fun p => if p.1 = k then (k, v) else p)) k =
      if (jsLookup l k).isSome then some v else none := by
  induction l with
  | nil => rfl
  | cons a t ih =>
      by_cases h : a.1 = k
      · simp [jsLookup_cons, h]
      · simp [jsLookup_cons, h, ih]

theorem jsLookup_map_replace_ne {α : Type} (l : List (String × α))
    (k k' : String) (v : α) (h : k' ≠ k) :
    jsLookup (l.map (fun p => if p.1 = k then (k, v) else p)) k' =
      jsLookup l k' := by
  induction l with
  | nil => rfl
  | cons a t ih =>
      by_cases ha : a.1 = k
      · simp only [List.map_cons, if_pos ha, jsLookup_cons, ih]
        rw [if_neg (fun hk => h hk.symm), if_neg (fun hk => h (ha ▸ hk).symm)]
      · simp [jsLookup_cons, ha, ih]

theorem jsLookup_jsSet_self {α : Type} (l : List (String × α)) (k : String)
    (v : α) : jsLookup (jsSet l k v) k = some v := by
  by_cases h : (jsLookup l k).isSome
  · rw [jsSet_fst_eq l k v h, jsLookup_map_replace_self, if_pos h]
  · rw [jsSet_of_lookup_none l k v (by simpa using h), jsLookup_append]
    simp [jsLookup_cons, Option.not_isSome_iff_eq_none.mp h]

theorem jsLookup_jsSet_ne {α : Type} (l : List (String × α)) (k k' : String)
    (v : α) (h : k' ≠ k) : jsLookup (jsSet l k v) k' = jsLookup l k' := by
  by_cases hs : (jsLookup l k).isSome
  · rw [jsSet_fst_eq l k v hs, jsLookup_map_replace_ne _ _ _ _ h]
  · rw [jsSet_of_lookup_none l k v (by simpa using hs), jsLookup_append]
    simp [jsLookup_cons, jsLookup_nil, Ne.symm h]

theorem jsSet_map_fst {α : Type} (l : List (String × α)) (k : String) (v : α) :
    (jsSet l k v).map Prod.fst =
      if (jsLookup l k).isSome then l.map Prod.fst
      else l.map Prod.fst ++ [k] := by
  by_cases h : (jsLookup l k).isSome
  · rw [jsSet_fst_eq l k v h, if_pos h, List.map_map]
    congr 1
    funext p
    by_cases hp : p.1 = k <;> simp [hp, Function.comp]
  · rw [jsSet_of_lookup_none l k v (by simpa using h), if_neg h]
    simp

/-- Membership resolves JavaScript `findIndex` + indexing to the key itself. -/
theorem jsFindIdx_mem (l : List String) (k : String) (h : k ∈ l) :
    ∃ i, jsFindIdx (fun a => a = k) l = some i ∧ l[i]? = some k := by
  induction l with
  | nil => cases h
  | cons a t ih =>
      by_cases ha : a = k
      · exact ⟨0, by simp [jsFindIdx, ha], by simp [ha]⟩
      · rcases ih (List.mem_of_ne_of_mem (fun hk => ha hk.symm) h)
          with ⟨i, hfind, hget⟩
        exact ⟨i + 1, by simp [jsFindIdx, ha, hfind], by simpa using hget⟩

theorem jsIndexGet_findIndex (l : List String) (k : String) (h : k ∈ l) :
    jsIndexGet l (jsFindIndexEq l (some k)) = some k := by
  rcases jsFindIdx_mem l k h with ⟨i, hfind, hget⟩
  simp [jsFindIndexEq, hfind, jsIndexGet, hget]

theorem jsIndexGet_last (l : List String) (x : String) :
    jsIndexGet (l ++ [x]) (((l ++ [x]).length : Int) - 1) = some x := by
  have hlen : ((l ++ [x]).length : Int) - 1 = (l.length : Int) := by
    simp
  rw [hlen]
  simp [jsIndexGet, List.getElem?_append_right (Nat.le_refl _)]

/-- One-step unfolding of `getQueryOrList` on a non-empty key list. -/
theorem getQueryOrList_cons (sokl : List String) (sortObj : KeySetSort)
    (sv : Option SkipValues) (k0 : String) (restList : List String) :
    getQueryOrList sokl sortObj sv (k0 :: restList) =
      getQueryOrListBody sokl sortObj sv k0 restList
        (getQueryOrList sokl sortObj sv restList) := rfl

/-- Resolved body, final-key case: when the key following `k0` is `"_id"`
(the last key), the body emits the head clause for `k0` and the direct
equality-plus-range clause, without consuming the nested alternatives. -/
theorem getQueryOrListBody_last (base : List String) (sortObj : KeySetSort)
    (sv : SkipValues) (k0 : String) (restList : List String)
    (hcur : jsIndexGet (base ++ ["_id"])
      (jsFindIndexEq (base ++ ["_id"]) (some k0)) = some k0)
    (hhead : restList.head? = some "_id")
    (nested : Except JsError (List FilterObj)) :
    getQueryOrListBody (base ++ ["_id"]) sortObj (some sv) k0 restList nested =
      .ok (specHead sortObj sv k0 ++
        [jsSet [(k0, Q.val (some (svval sv k0)))] "_id"
          (Q.obj [(dirOp sortObj "_id", Q.val (some (svval sv "_id")))])]) := by
  have hnextmem : jsIndexGet (base ++ ["_id"])
      (jsFindIndexEq (base ++ ["_id"]) (some "_id")) = some "_id" :=
    jsIndexGet_findIndex _ _ (by simp)
  have hlast : jsIndexGet (base ++ ["_id"])
      (((base ++ ["_id"]).length : Int) - 1) = some "_id" :=
    jsIndexGet_last base "_id"
  rw [getQueryOrListBody]
  simp only [hhead, hcur, hnextmem, hlast]
  simp [svGetK, svGet, jsKeyStr, jsTruthyStr, specHead, svval,
    Bind.bind, Except.bind, Pure.pure, Except.pure]

/-- Resolved body, middle-key case: when the key following `k0` is a
non-`_id` key `nk`, the body emits the head clause for `k0` and the equality
clause carrying the nested `$or` of the (already computed) alternatives. -/
theorem getQueryOrListBody_mid (base : List String) (sortObj : KeySetSort)
    (sv : SkipValues) (k0 nk : String) (restList : List String)
    (hcur : jsIndexGet (base ++ ["_id"])
      (jsFindIndexEq (base ++ ["_id"]) (some k0)) = some k0)
    (hhead : restList.head? = some nk)
    (hnextmem : jsIndexGet (base ++ ["_id"])
      (jsFindIndexEq (base ++ ["_id"]) (some nk)) = some nk)
    (hnkid : nk ≠ "_id") (hnk : nk ≠ "")
    (nl : List FilterObj) :
    getQueryOrListBody (base ++ ["_id"]) sortObj (some sv) k0 restList
      (.ok nl) =
      .ok (specHead sortObj sv k0 ++
        [jsSet [(k0, Q.val (some (svval sv k0)))] "$or"
          (Q.arr (nl.map Q.obj))]) := by
  have hlast : jsIndexGet (base ++ ["_id"])
      (((base ++ ["_id"]).length : Int) - 1) = some "_id" :=
    jsIndexGet_last base "_id"
  rw [getQueryOrListBody]
  simp only [hhead, hcur, hnextmem, hlast]
  simp [svGetK, svGet, jsKeyStr, jsTruthyStr, hnk, hnkid, specHead, svval,
    Bind.bind, Except.bind, Pure.pure, Except.pure]

/-- Central refinement lemma: on a normalized key list (distinct keys, the
unique key `"_id"` last) with the skip values present, the source's
`getQueryOrList` computes exactly the construction described by the
specification (null-aware form), at every recursion stage. `tl` is the
still-to-process prefix of non-`_id` keys, `pre` the keys already consumed. -/
theorem getQueryOrList_eq_spec (base : List String) (sortObj : KeySetSort)
    (sv : SkipValues) (hnd : (base ++ ["_id"]).Nodup)
    (hne : ∀ k ∈ base, k ≠ "") :
    ∀ (tl pre : List String), pre ++ tl = base → tl ≠ [] →
    getQueryOrList (base ++ ["_id"]) sortObj (some sv) (tl ++ ["_id"]) =
      .ok (specAltNullAware sortObj sv (tl ++ ["_id"])) := by
  intro tl
  induction tl with
  | nil => intro pre _ hcontra; exact absurd rfl hcontra
  | cons k1 tl' ih =>
      intro pre hpre _
      have hk1base : k1 ∈ base := by rw [← hpre]; simp
      have hidbase : "_id" ∉ base := by
        have hd := (List.nodup_append.mp hnd).2.2
        intro hmem
        exact hd hmem (by simp)
      have hcur : jsIndexGet (base ++ ["_id"])
          (jsFindIndexEq (base ++ ["_id"]) (some k1)) = some k1 :=
        jsIndexGet_findIndex _ _ (by simp [hk1base])
      cases tl' with
      | nil =>
          show getQueryOrList (base ++ ["_id"]) sortObj (some sv)
              (k1 :: ["_id"]) = _
          rw [getQueryOrList_cons,
            getQueryOrListBody_last base sortObj sv k1 ["_id"] hcur rfl]
          simp [specAltNullAware]
      | cons k2 tl'' =>
          have hk2base : k2 ∈ base := by rw [← hpre]; simp
          have hk2id : k2 ≠ "_id" := fun hk => hidbase (hk ▸ hk2base)
          have hnextmem : jsIndexGet (base ++ ["_id"])
              (jsFindIndexEq (base ++ ["_id"]) (some k2)) = some k2 :=
            jsIndexGet_findIndex _ _ (by simp [hk2base])
          have hrec := ih (pre ++ [k1]) (by rw [← hpre]; simp) (by simp)
          show getQueryOrList (base ++ ["_id"]) sortObj (some sv)
              (k1 :: ((k2 :: tl'') ++ ["_id"])) = _
          rw [getQueryOrList_cons, hrec,
            getQueryOrListBody_mid base sortObj sv k1 k2
              ((k2 :: tl'') ++ ["_id"]) hcur rfl hnextmem hk2id
              (hne k2 hk2base)]
          rw [show ((k1 :: (k2 :: tl'')) ++ ["_id"] : List String) =
            k1 :: k2 :: (tl'' ++ ["_id"]) from rfl]
          rw [specAltNullAware]
          simp

/-- With every resume-point value present and non-null (and no key literally
named `"$or"`), the null-aware construction coincides with claim C1's
strict-range construction. -/
theorem specAltStrict_eq_nullAware (sortObj : KeySetSort) (sv : SkipValues) :
    ∀ keyList : List String, keyList.Nodup →
    (∀ k ∈ keyList, ¬ isNullish (jsLookup sv k) = true ∧ k ≠ "$or") →
    specAltStrict sortObj sv keyList = specAltNullAware sortObj sv keyList := by
  intro keyList
  induction keyList with
  | nil => intro _ _; rfl
  | cons k1 rest ih =>
      cases rest with
      | nil => intro _ _; rfl
      | cons k2 rest' =>
          intro hnd hvals
          have hk1 := hvals k1 (by simp)
          have hk12 : k1 ≠ k2 := by
            intro h
            exact (List.nodup_cons.mp hnd).1 (h ▸ List.mem_cons_self k2 rest')
          have hih := ih (List.nodup_cons.mp hnd).2
            (fun k hk => hvals k (List.mem_cons_of_mem _ hk))
          rw [specAltStrict, specAltNullAware, ← hih, specHead]
          rw [if_neg (show ¬ isNullish (jsLookup sv k1) = true from by
            simpa using hk1.1)]
          congr 1
          rcases hrest : rest'.isEmpty with _ | _
          · simp only [hrest, Bool.false_eq_true, if_false]
            rw [jsSet_of_lookup_none _ _ _
              (by simp [jsLookup_cons, jsLookup_nil, hk1.2])]
            simp
          · simp only [hrest, if_true]
            rw [jsSet_of_lookup_none _ _ _
              (by simp [jsLookup_cons, jsLookup_nil, hk12])]
            simp

/-- The `sortObjWithoutId` fold (source lines 142–152) collects, in order,
the entries whose key is not `"_id"`, provided the keys are distinct. -/
theorem foldl_jsSet_removeId (sortObj : KeySetSort)
    (hnd : (sortObj.map Prod.fst).Nodup) :
    sortObj.foldl
      (fun obj kv => if kv.1 = "_id" then obj else jsSet obj kv.1 kv.2)
      ([] : KeySetSort) =
      sortObj.filter (fun kv => kv.1 ≠ "_id") := by
  suffices h : ∀ (l : KeySetSort) (acc : KeySetSort),
      (l.map Prod.fst).Nodup →
      (∀ p ∈ l, jsLookup acc p.1 = none) →
      l.foldl (fun obj kv => if kv.1 = "_id" then obj else jsSet obj kv.1 kv.2)
        acc = acc ++ l.filter (fun kv => kv.1 ≠ "_id") by
    simpa using h sortObj [] hnd (by intro p _; rfl)
  intro l
  induction l with
  | nil => intro acc _ _; simp
  | cons kv t ih =>
      intro acc hnd' hacc
      by_cases hid : kv.1 = "_id"
      · simp only [List.foldl_cons, if_pos hid]
        rw [ih acc (by simpa using (List.nodup_cons.mp (by simpa using hnd')).2)
          (fun p hp => hacc p (List.mem_cons_of_mem _ hp))]
        simp [List.filter_cons, hid]
      · simp only [List.foldl_cons, if_neg hid]
        rw [jsSet_of_lookup_none acc kv.1 kv.2 (hacc kv (by simp))]
        have hkv : kv.1 ∉ t.map Prod.fst :=
          (List.nodup_cons.mp (by simpa using hnd')).1
        rw [ih (acc ++ [(kv.1, kv.2)])
          (by simpa using (List.nodup_cons.mp (by simpa using hnd')).2)
          (fun p hp => by
            rw [jsLookup_append, hacc p (List.mem_cons_of_mem _ hp)]
            have hne : kv.1 ≠ p.1 := by
              intro h
              exact hkv (h ▸ List.mem_map_of_mem Prod.fst hp)
            simp [jsLookup_cons, jsLookup_nil, hne])]
        simp [List.filter_cons, hid]

theorem map_fst_filter_key {α : Type} (l : List (String × α)) (s : String) :
    (l.filter (fun kv => kv.1 ≠ s)).map Prod.fst =
      (l.map Prod.fst).filter (fun k => k ≠ s) := by
  induction l with
  | nil => rfl
  | cons a t ih =>
      simp only [ne_eq, decide_not] at ih ⊢
      by_cases h : a.1 = s <;> simp [List.filter_cons, h, ih]

/-- `getFilterQuery` on a present, well-formed skip content whose normalized
sort has at least one non-`_id` key: the compiled filter carries the
spec-described tie-break disjunction, `$and`-wrapped when the caller filter
has a truthy top-level `$or` and object-merged otherwise. -/
theorem getFilterQuery_multi (filter : FilterObj) (sortObj : KeySetSort)
    (sv : SkipValues) (limit : Option Int) (base : List String)
    (hkeys : sortObj.map Prod.fst = base ++ ["_id"])
    (hnd : (base ++ ["_id"]).Nodup) (hbase : base ≠ [])
    (hne : ∀ k ∈ base, k ≠ "") :
    getFilterQuery filter (some ⟨some sortObj, limit, some sv⟩) =
      .ok (if jsTruthyQ (jsLookup filter "$or") then
        [("$and", Q.arr [Q.obj filter,
          Q.obj [("$or", Q.arr ((specAltNullAware sortObj sv
            (base ++ ["_id"])).map Q.obj))]])]
      else
        jsSet filter "$or" (Q.arr ((specAltNullAware sortObj sv
          (base ++ ["_id"])).map Q.obj))) := by
  have hndfst : (sortObj.map Prod.fst).Nodup := by rw [hkeys]; exact hnd
  have hid : "_id" ∉ base := by
    have hd := (List.nodup_append.mp hnd).2.2
    exact fun hmem => hd hmem (by simp)
  have hswid := foldl_jsSet_removeId sortObj hndfst
  have hfst : (sortObj.filter (fun kv => kv.1 ≠ "_id")).map Prod.fst = base := by
    rw [map_fst_filter_key, hkeys, List.filter_append]
    have h1 : base.filter (fun k => k ≠ "_id") = base :=
      List.filter_eq_self.mpr (fun a ha => by
        have hne' : a ≠ "_id" := fun h => hid (h ▸ ha)
        simpa using hne')
    have h2 : (["_id"] : List String).filter (fun k => k ≠ "_id") = [] := rfl
    rw [h1, h2, List.append_nil]
  have hnonempty : (sortObj.filter (fun kv => kv.1 ≠ "_id")).isEmpty = false := by
    cases hl : sortObj.filter (fun kv => kv.1 ≠ "_id") with
    | nil => exact absurd (by rw [← hfst, hl]; rfl) hbase
    | cons a t => rfl
  have horQ := getQueryOrList_eq_spec base sortObj sv hnd hne base [] rfl hbase
  simp only [getFilterQuery, hswid, hfst, hnonempty, horQ,
    Bind.bind, Except.bind, Pure.pure, Except.pure]
  simp only [Bool.false_eq_true, if_false]
  by_cases hor : jsTruthyQ (jsLookup filter "$or") <;> simp [hor]

/-- Per-key semantics: on same-bracket values with a scalar non-null
resume value, the emitted equality and range predicates coincide with the
BSON comparison's outcomes. -/
theorem perKey_match (x rv : BVal) (hr : bsonTypeRank x = bsonTypeRank rv)
    (hs : scalarSkipVal rv = true) (hnn : rv ≠ .vNull) :
    (eqMatch (some x) rv = true ↔ bsonCmp x rv = .eq)
    ∧ (opMatch (some x) "$gt" (Q.val (some rv)) = true ↔ bsonCmp x rv = .gt)
    ∧ (opMatch (some x) "$lt" (Q.val (some rv)) = true ↔ bsonCmp x rv = .lt) := by
  cases x <;> cases rv <;>
    simp_all [bsonTypeRank, scalarSkipVal, eqMatch, opMatch, bsonCmp,
      scalarEq, scalarLt]

/-- The spec-described strict disjunction selects exactly the documents
that sort strictly after the resume point, for documents whose sort-key
values sit in the same type bracket as the (scalar, non-null) resume-point
values. -/
theorem matchOr_eq_seekAfter (sortObj : KeySetSort) (sv : SkipValues)
    (doc : BDoc) :
    ∀ tl : List String, tl ≠ [] →
    (∀ k ∈ tl ++ ["_id"], k ≠ "$or" ∧ scalarSkipVal (svval sv k) = true ∧
      svval sv k ≠ .vNull ∧
      ∃ x, docKeyVal doc k = some x ∧
        bsonTypeRank x = bsonTypeRank (svval sv k)) →
    matchOrList doc ((specAltStrict sortObj sv (tl ++ ["_id"])).map Q.obj) =
      seekAfter sortObj sv doc (tl ++ ["_id"]) := by
  intro tl
  induction tl with
  | nil => intro h _; exact absurd rfl h
  | cons k1 tl' ih =>
      intro _ hk
      obtain ⟨hk1or, hk1s, hk1n, x1, hx1, hr1⟩ := hk k1 (by simp)
      obtain ⟨heq1, hgt1, hlt1⟩ := perKey_match x1 (svval sv k1) hr1 hk1s hk1n
      obtain ⟨hidor, hids, hidn, xid, hxid, hrid⟩ := hk "_id" (by simp)
      obtain ⟨heqid, hgtid, hltid⟩ :=
        perKey_match xid (svval sv "_id") hrid hids hidn
      cases tl' with
      | nil =>
          show matchOrList doc
            ((specAltStrict sortObj sv (k1 :: "_id" :: [])).map Q.obj) = _
          rw [specAltStrict]
          show matchOrList doc
            (Q.obj [(k1, Q.obj [(dirOp sortObj k1, Q.val (some (svval sv k1)))])] ::
             Q.obj [(k1, Q.val (some (svval sv k1))),
               ("_id", Q.obj [(dirOp sortObj "_id",
                 Q.val (some (svval sv "_id")))])] :: []) = _
          simp only [seekAfter]
          simp only [matchOrList, matchFilter, matchEntry, matchOps,
            if_neg hk1or, hx1, hxid]
          simp only [jsNullCoalesce, hx1, hxid, Option.getD_some]
          set c1 := bsonCmp x1 (svval sv k1) with ← hc1
          set cid := bsonCmp xid (svval sv "_id") with ← hcid
          rcases c1 with _ | _ | _ <;>
            rcases cid with _ | _ | _ <;>
            by_cases hd1 : jsLookup sortObj k1 = some (-1) <;>
            by_cases hdid : jsLookup sortObj "_id" = some (-1) <;>
              simp_all [dirOp, matchOps, matchEntry]
      | cons k2 tl'' =>
          have hihapp := ih (by simp) (fun k hmem => hk k (by
            rcases List.mem_append.mp hmem with hmem' | hmem'
            · exact List.mem_append.mpr (Or.inl (List.mem_cons_of_mem _ hmem'))
            · exact List.mem_append.mpr (Or.inr hmem')))
          show matchOrList doc
            ((specAltStrict sortObj sv
              (k1 :: k2 :: (tl'' ++ ["_id"]))).map Q.obj) = _
          rw [specAltStrict]
          have hne2 : ¬ (tl'' ++ ["_id"] : List String).isEmpty = true := by
            cases tl'' <;> simp
          simp only [hne2, if_false]
          simp only [seekAfter]
          simp only [matchOrList, matchFilter, matchEntry, matchOps,
            if_neg hk1or, hx1]
          rw [show ((k2 :: tl'') ++ ["_id"] : List String) =
            k2 :: (tl'' ++ ["_id"]) from rfl] at hihapp
          simp only [if_pos rfl, hihapp]
          simp only [jsNullCoalesce, hx1, Option.getD_some]
          set c1 := bsonCmp x1 (svval sv k1) with ← hc1
          rcases c1 with _ | _ | _ <;>
            by_cases hd1 : jsLookup sortObj k1 = some (-1) <;>
              simp_all [dirOp, matchOps, matchEntry] <;>
              (rw [seekAfter.eq_def]; simp [jsNullCoalesce])

/-- Generalized accumulator form of the `getSkipValues` reduce (source
lines 266–275): with distinct sort keys, a successful run appends exactly
one entry per sort key, in order, each holding that key's extracted,
null-normalized value. -/
theorem getSkipValues_aux (doc : BDoc) :
    ∀ (l : KeySetSort) (acc sv : SkipValues),
    (∀ p ∈ l, jsLookup acc p.1 = none) → (l.map Prod.fst).Nodup →
    List.foldlM (fun obj kv => do
        let v ← getDocumentSkipValue kv.1 (some (.vObj doc))
        pure (jsSet obj kv.1 (jsNullCoalesce v))) acc l = .ok sv →
    ∃ tail : SkipValues, sv = acc ++ tail ∧
      tail.map Prod.fst = l.map Prod.fst ∧
      ∀ p ∈ l, ∃ v, getDocumentSkipValue p.1 (some (.vObj doc)) = .ok v ∧
        jsLookup tail p.1 = some (jsNullCoalesce v) := by
  intro l
  induction l with
  | nil =>
      intro acc sv _ _ h
      refine ⟨[], ?_, by simp, by simp⟩
      have : acc = sv := by
        simpa [List.foldlM, Pure.pure, Except.pure] using h
      simp [← this]
  | cons kv t ih =>
      intro acc sv hacc hnd h
      rw [List.foldlM_cons] at h
      rcases hv : getDocumentSkipValue kv.1 (some (.vObj doc)) with e | v
      · rw [hv] at h
        simp [Bind.bind, Except.bind] at h
      · rw [hv] at h
        simp only [Bind.bind, Except.bind, Pure.pure, Except.pure] at h
        rw [jsSet_of_lookup_none acc kv.1 _ (hacc kv (by simp))] at h
        have hkv1 : kv.1 ∉ t.map Prod.fst :=
          (List.nodup_cons.mp (by simpa using hnd)).1
        rcases ih (acc ++ [(kv.1, jsNullCoalesce v)]) sv
          (fun p hp => by
            rw [jsLookup_append, hacc p (List.mem_cons_of_mem _ hp)]
            have hne : kv.1 ≠ p.1 := fun hh =>
              hkv1 (hh ▸ List.mem_map_of_mem Prod.fst hp)
            simp [jsLookup_cons, jsLookup_nil, hne])
          (List.nodup_cons.mp (by simpa using hnd)).2 h with
          ⟨tail', hsv, hkeys, hvals⟩
        refine ⟨(kv.1, jsNullCoalesce v) :: tail', by simpa using hsv,
          by simpa using hkeys, ?_⟩
        intro p hp
        rcases List.mem_cons.mp hp with hp' | hp'
        · exact ⟨v, by rw [hp']; exact hv,
            by rw [hp', jsLookup_cons]; simp⟩
        · rcases hvals p hp' with ⟨v', hv', hl'⟩
          refine ⟨v', hv', ?_⟩
          rw [jsLookup_cons, if_neg, hl']
          exact fun hh => hkv1 (hh ▸ List.mem_map_of_mem Prod.fst hp')

theorem getSkipValues_char (sort : KeySetSort) (doc : BDoc) (sv : SkipValues)
    (hnd : (sort.map Prod.fst).Nodup) (h : getSkipValues sort doc = .ok sv) :
    sv.map Prod.fst = sort.map Prod.fst ∧
    ∀ p ∈ sort, ∃ v, getDocumentSkipValue p.1 (some (.vObj doc)) = .ok v ∧
      jsLookup sv p.1 = some (jsNullCoalesce v) := by
  rcases getSkipValues_aux doc sort [] sv (by intro p _; rfl) hnd h with
    ⟨tail, hsv, hkeys, hvals⟩
  simp only [List.nil_append] at hsv
  exact ⟨hsv ▸ hkeys, fun p hp => hsv ▸ hvals p hp⟩

/-- Property access chains through `null`/`undefined` throw. -/
theorem goSkipValue_none (k : String) (ks : List String) :
    goSkipValue (k :: ks) none = .error .typeError := by
  cases ks <;> rfl

/-- Descending into a semantically atomic value (date, ObjectId, or any
non-object, non-null primitive): one remaining segment yields `undefined`
(normalized to null by the caller); deeper descent throws. -/
theorem goSkipValue_atomic (b : BVal) (hb : scalarSkipVal b = true)
    (hnn : b ≠ .vNull) (k : String) (ks : List String) :
    goSkipValue (k :: ks) (some b) =
      if ks.isEmpty then .ok none else .error .typeError := by
  cases b <;> cases ks <;>
    simp_all [goSkipValue, jsGetProp, scalarSkipVal, goSkipValue_none,
      Bind.bind, Except.bind]

/-- `getSkipContent` returns `undefined` exactly on an empty-or-short page. -/
theorem getSkipContentImpl_none_iff (limit : Int) (sort : KeySetSort)
    (docs : List BDoc) :
    getSkipContentImpl limit sort docs = .ok none ↔
      (docs.length = 0 ∨ (docs.length : Int) < limit) := by
  by_cases h : docs.length = 0 ∨ (docs.length : Int) < limit
  · rw [show getSkipContentImpl limit sort docs = pure none from by
      rw [getSkipContentImpl, if_pos h]]
    simpa [Pure.pure, Except.pure] using h
  · simp only [getSkipContentImpl, if_neg h]
    constructor
    · intro hcontra
      rcases hsv : getSkipValues sort (docs.getLastD []) with e | sv <;>
        rw [hsv] at hcontra <;>
        simp [Bind.bind, Except.bind, Pure.pure, Except.pure] at hcontra
    · intro hc; exact absurd hc h

/-- A full page (length = limit included) with a successful extraction
issues a resume point carrying the skip values, limit and sort. -/
theorem getSkipContentImpl_full (limit : Int) (sort : KeySetSort)
    (docs : List BDoc) (sv : SkipValues)
    (h : ¬(docs.length = 0 ∨ (docs.length : Int) < limit))
    (hsv : getSkipValues sort (docs.getLastD []) = .ok sv) :
    getSkipContentImpl limit sort docs = .ok (some ⟨sv, limit, sort⟩) := by
  rw [getSkipContentImpl, if_neg h]
  simp only [List.getLastD_eq_getLast?] at hsv
  simp [hsv, Bind.bind, Except.bind, Pure.pure, Except.pure]

/-- On an empty or short page, `getSkipToken` throws (encrypting the
`undefined` skip content) instead of returning a token or `undefined`. -/
theorem getSkipTokenImpl_short (crypto : CryptoModel)
    (algorithm key : Option String) (iv : List Nat) (limit : Int)
    (sort : KeySetSort) (docs : List BDoc)
    (h : docs.length = 0 ∨ (docs.length : Int) < limit) :
    getSkipTokenImpl crypto algorithm key iv limit sort docs =
      .error .typeError := by
  have hnone := (getSkipContentImpl_none_iff limit sort docs).mpr h
  simp [getSkipTokenImpl, hnone, Bind.bind, Except.bind, encryptSkipContent]

/-! ## base64url and wire-format lemmas -/

theorem b64CharDecode_b64Char : ∀ n, n < 64 →
    b64CharDecode (b64Char n) = some n := by decide

theorem b64Char_lt_ne_dot : ∀ n, n < 64 → b64Char n ≠ '.' := by decide

theorem b64Char_ne_dot (n : Nat) : b64Char n ≠ '.' := by
  by_cases h : n < 64
  · exact b64Char_lt_ne_dot n h
  · rw [b64Char, b64Alphabet, List.getD_eq_default]
    · decide
    · simpa using Nat.le_of_not_lt h

theorem b64Encode_no_dot : ∀ bs : List Nat, '.' ∉ b64Encode bs
  | [] => by simp [b64Encode]
  | [b1] => by
      simp only [b64Encode, List.mem_cons, List.not_mem_nil, or_false]
      exact fun h => h.elim (fun h' => b64Char_ne_dot _ h'.symm)
        (fun h' => b64Char_ne_dot _ h'.symm)
  | [b1, b2] => by
      simp only [b64Encode, List.mem_cons, List.not_mem_nil, or_false]
      intro h
      rcases h with h' | h' | h' <;> exact b64Char_ne_dot _ h'.symm
  | b1 :: b2 :: b3 :: rest => by
      simp only [b64Encode, List.mem_cons]
      intro h
      rcases h with h' | h' | h' | h' | h'
      · exact b64Char_ne_dot _ h'.symm
      · exact b64Char_ne_dot _ h'.symm
      · exact b64Char_ne_dot _ h'.symm
      · exact b64Char_ne_dot _ h'.symm
      · exact b64Encode_no_dot rest h'

theorem b64_roundtrip : ∀ bs : List Nat, (∀ b ∈ bs, b < 256) →
    b64Decode (b64Encode bs) = some bs
  | [], _ => rfl
  | [b1], h => by
      have hb1 : b1 < 256 := h b1 (by simp)
      simp only [b64Encode, b64Decode,
        b64CharDecode_b64Char _ (by omega : b1 / 4 < 64),
        b64CharDecode_b64Char _ (by omega : b1 % 4 * 16 < 64),
        Option.bind_some]
      simp [Bind.bind]
      omega
  | [b1, b2], h => by
      have hb1 : b1 < 256 := h b1 (by simp)
      have hb2 : b2 < 256 := h b2 (by simp)
      simp only [b64Encode, b64Decode,
        b64CharDecode_b64Char _ (by omega : b1 / 4 < 64),
        b64CharDecode_b64Char _ (by omega : b1 % 4 * 16 + b2 / 16 < 64),
        b64CharDecode_b64Char _ (by omega : b2 % 16 * 4 < 64)]
      simp [Bind.bind]
      omega
  | b1 :: b2 :: b3 :: rest, h => by
      have hb1 : b1 < 256 := h b1 (by simp)
      have hb2 : b2 < 256 := h b2 (by simp)
      have hb3 : b3 < 256 := h b3 (by simp)
      have ih := b64_roundtrip rest (fun b hb => h b (by simp [hb]))
      simp only [b64Encode, b64Decode,
        b64CharDecode_b64Char _ (by omega : b1 / 4 < 64),
        b64CharDecode_b64Char _ (by omega : b1 % 4 * 16 + b2 / 16 < 64),
        b64CharDecode_b64Char _ (by omega : b2 % 16 * 4 + b3 / 64 < 64),
        b64CharDecode_b64Char _ (by omega : b3 % 64 < 64), ih]
      simp [Bind.bind]
      constructor
      · omega
      constructor
      · omega
      · omega

theorem splitOnDot_no_dot : ∀ b : List Char, '.' ∉ b →
    splitOnDotChars b = [b]
  | [], _ => rfl
  | c :: rest, h => by
      rw [splitOnDotChars]
      have hc : ¬ c = '.' := fun hh => h (by simp [hh])
      rw [splitOnDot_no_dot rest (fun hh => h (by simp [hh]))]
      simp [hc]

theorem splitOnDot_append : ∀ a b : List Char, '.' ∉ a →
    splitOnDotChars (a ++ '.' :: b) = a :: splitOnDotChars b
  | [], b, _ => by simp [splitOnDotChars]
  | c :: rest, b, h => by
      have hc : ¬ c = '.' := fun hh => h (by simp [hh])
      rw [show ((c :: rest) ++ '.' :: b : List Char) =
        c :: (rest ++ '.' :: b) from rfl]
      rw [splitOnDotChars, splitOnDot_append rest b (fun hh => h (by simp [hh]))]
      simp [hc]

/-! ## Extended-JSON round-trip lemmas -/

theorem ejsonValParse_scalar (v : BVal) (hv : scalarSkipVal v = true) :
    ejsonValParse (ejsonVal v) = v := by
  cases v <;> simp_all [ejsonVal, ejsonValParse, scalarSkipVal]

theorem ejsonValParseFields_scalar :
    ∀ svs : SkipValues, (∀ p ∈ svs, scalarSkipVal p.2 = true) →
    ejsonValParseFields (ejsonValFields svs) = svs
  | [], _ => rfl
  | (k, v) :: rest, h => by
      rw [ejsonValFields, ejsonValParseFields,
        ejsonValParse_scalar v (h (k, v) (by simp)),
        ejsonValParseFields_scalar rest
          (fun p hp => h p (List.mem_cons_of_mem _ hp))]

theorem jsonToSort_roundtrip : ∀ sort : KeySetSort,
    jsonToSort (.obj (sort.map (fun p => (p.1, Json.num p.2)))) = some sort
  | [] => rfl
  | (k, d) :: rest => by
      have ih := jsonToSort_roundtrip rest
      simp only [jsonToSort] at ih ⊢
      simp [jsonToSortFields, ih]

/-- The EJSON value mapping inverts on skip contents whose values are
scalars: the parsed token payload reconstructs the exact sort, limit and
typed skip values. -/
theorem jsonToRaw_ejsonContent (sc : SkipContentOut)
    (hscal : ∀ p ∈ sc.skipValues, scalarSkipVal p.2 = true) :
    jsonToRaw (ejsonContent sc) = rawOf sc := by
  rw [ejsonContent, jsonToRaw]
  simp only [jsLookup_cons, jsLookup_nil]
  rw [rawOf]
  simp [jsonToSort_roundtrip, jsonToSV, ejsonValParseFields_scalar _ hscal]

/-! ## Missing-`skipValues` error lemmas (for C9) -/

/-- With `skipContent.skipValues` missing, the very first
`skipContent.skipValues[currentKey]` access throws. -/
theorem getQueryOrListBody_noSV (sokl : List String) (sortObj : KeySetSort)
    (k0 : String) (restList : List String)
    (nested : Except JsError (List FilterObj)) :
    getQueryOrListBody sokl sortObj none k0 restList nested =
      .error .typeError := by
  simp [getQueryOrListBody, svGetK, svGet, Bind.bind, Except.bind]

/-- A present skip content whose sort has non-`_id` keys but whose
`skipValues` is missing makes `getFilterQuery` throw. -/
theorem getFilterQuery_noSkipValues (filter : FilterObj) (sortObj : KeySetSort)
    (limit : Option Int) (base : List String)
    (hkeys : sortObj.map Prod.fst = base ++ ["_id"])
    (hnd : (base ++ ["_id"]).Nodup) (hbase : base ≠ []) :
    getFilterQuery filter (some ⟨some sortObj, limit, none⟩) =
      .error .typeError := by
  have hndfst : (sortObj.map Prod.fst).Nodup := by rw [hkeys]; exact hnd
  have hid : "_id" ∉ base := by
    have hd := (List.nodup_append.mp hnd).2.2
    exact fun hmem => hd hmem (by simp)
  have hswid := foldl_jsSet_removeId sortObj hndfst
  have hfst : (sortObj.filter (fun kv => kv.1 ≠ "_id")).map Prod.fst = base := by
    rw [map_fst_filter_key, hkeys, List.filter_append]
    have h1 : base.filter (fun k => k ≠ "_id") = base :=
      List.filter_eq_self.mpr (fun a ha => by
        have hne' : a ≠ "_id" := fun h => hid (h ▸ ha)
        simpa using hne')
    have h2 : (["_id"] : List String).filter (fun k => k ≠ "_id") = [] := rfl
    rw [h1, h2, List.append_nil]
  have hnonempty : (sortObj.filter (fun kv => kv.1 ≠ "_id")).isEmpty = false := by
    cases hl : sortObj.filter (fun kv => kv.1 ≠ "_id") with
    | nil => exact absurd (by rw [← hfst, hl]; rfl) hbase
    | cons a t => rfl
  have herr : getQueryOrList (base ++ ["_id"]) sortObj none (base ++ ["_id"]) =
      .error .typeError := by
    cases base with
    | nil => exact absurd rfl hbase
    | cons b0 brest =>
        rw [show ((b0 :: brest) ++ ["_id"] : List String) =
          b0 :: (brest ++ ["_id"]) from rfl, getQueryOrList_cons,
          getQueryOrListBody_noSV]
  simp only [getFilterQuery, hswid, hfst, hnonempty, herr,
    Bind.bind, Except.bind, Pure.pure, Except.pure]
  simp

/-- With only the `_id` key in the sort, a missing `skipValues` and a caller
filter that does not (truthily) constrain `_id`, the single-field branch
throws on `skipContent.skipValues._id`. -/
theorem getFilterQuery_idOnly_noSkipValues (filter : FilterObj)
    (limit : Option Int) (d : Int)
    (hfid : jsTruthyQ (jsLookup filter "_id") = false) :
    getFilterQuery filter (some ⟨some [("_id", d)], limit, none⟩) =
      .error .typeError := by
  rw [jsLookup] at hfid
  simp [getFilterQuery, hfid, svGet, Bind.bind, Except.bind, Pure.pure,
    Except.pure, jsSet, jsLookup]

/-- With only the `_id` key in the sort, a missing `skipValues` but a caller
filter that already (truthily) constrains `_id`, `getFilterQuery` returns
the caller's filter without touching `skipValues` — no error. -/
theorem getFilterQuery_idOnly_redundant (filter : FilterObj)
    (limit : Option Int) (d : Int) (sv : Option SkipValues)
    (hfid : jsTruthyQ (jsLookup filter "_id") = true) :
    getFilterQuery filter (some ⟨some [("_id", d)], limit, sv⟩) =
      .ok filter := by
  simp [getFilterQuery, hfid, Bind.bind, Except.bind, Pure.pure, Except.pure]

theorem jsLookup_none_iff {α : Type} (l : List (String × α)) (k : String) :
    jsLookup l k = none ↔ k ∉ l.map Prod.fst := by
  rw [jsLookup, Option.map_eq_none', List.find?_eq_none]
  constructor
  · intro h hk
    rcases List.mem_map.mp hk with ⟨p, hp, hpk⟩
    have hcontra := h p hp
    simp [hpk] at hcontra
  · intro h p hp
    simp only [decide_eq_true_eq]
    intro hpk
    exact h (hpk ▸ List.mem_map_of_mem Prod.fst hp)

theorem isNullish_false_elim (v : JVal) (h : isNullish v = false) :
    jsNullCoalesce v ≠ .vNull := by
  match v with
  | none => simp [isNullish] at h
  | some x => cases x <;> simp_all [isNullish, jsNullCoalesce]

/-! # Claim theorems -/

/-- C10: with no resume point present, the compiled filter is the caller's
filter unchanged: `getFilterQuery(filter, none) == filter`. The embedding
is a pure function on the association-list representation, so the caller's
filter object is also never mutated. -/
theorem claim_C10_first_page_identity (filter : FilterObj) :
    getFilterQuery filter none = .ok filter := rfl

/-- C4: `getSortQuery` is total (it returns a plain value, never an error)
and returns the same mapping with: the `_id` direction `-1` exactly when
the input's `_id` direction is `-1` and ascending `1` otherwise; `_id`
appended as the final key when not already present; every other key keeping
its direction; and the key order preserved (with `_id` appended last when
new). -/
theorem claim_C4_sort_normalization (sort : KeySetSort) :
    (jsLookup (getSortQuery sort) "_id" =
      some (if jsLookup sort "_id" = some (-1) then -1 else 1))
    ∧ ("_id" ∉ sort.map Prod.fst →
        getSortQuery sort =
          sort ++ [("_id", if jsLookup sort "_id" = some (-1) then -1 else 1)])
    ∧ (∀ k, k ≠ "_id" → jsLookup (getSortQuery sort) k = jsLookup sort k)
    ∧ ((getSortQuery sort).map Prod.fst =
        if "_id" ∈ sort.map Prod.fst then sort.map Prod.fst
        else sort.map Prod.fst ++ ["_id"]) := by
  refine ⟨jsLookup_jsSet_self _ _ _, ?_,
    fun k hk => jsLookup_jsSet_ne _ _ _ _ hk, ?_⟩
  · intro hid
    rw [getSortQuery, jsSet_of_lookup_none _ _ _
      ((jsLookup_none_iff sort "_id").mpr hid)]
  · rw [getSortQuery, jsSet_map_fst]
    have hiff : (jsLookup sort "_id").isSome = true ↔
        "_id" ∈ sort.map Prod.fst := by
      constructor
      · intro hs
        by_contra hmem
        rw [(jsLookup_none_iff sort "_id").mpr hmem] at hs
        simp at hs
      · intro hmem
        rcases ho : jsLookup sort "_id" with _ | v
        · exact absurd ((jsLookup_none_iff sort "_id").mp ho)
            (by simpa using hmem)
        · rfl
    by_cases h : "_id" ∈ sort.map Prod.fst
    · rw [if_pos (hiff.mpr h), if_pos h]
    · rw [if_neg (fun hs => h (hiff.mp hs)), if_neg h]

/-- C2: for every sort key (the final unique key aside) whose resume-point
value is null or absent, the generated clauses compare that key for
equality against literal `null`; an ascending key's strict-range clause is
replaced by `{$exists: true, $ne: null}`, a descending key gets no range
clause at all — proved as a refinement: on a normalized key list,
`getQueryOrList` computes exactly the spec's null-aware construction
`specAltNullAware`. -/
theorem claim_C2_null_handling (base : List String) (sortObj : KeySetSort)
    (sv : SkipValues) (hnd : (base ++ ["_id"]).Nodup)
    (hne : ∀ k ∈ base, k ≠ "") (hbase : base ≠ []) :
    getQueryOrList (base ++ ["_id"]) sortObj (some sv) (base ++ ["_id"]) =
      .ok (specAltNullAware sortObj sv (base ++ ["_id"])) :=
  getQueryOrList_eq_spec base sortObj sv hnd hne base [] rfl hbase

/-- C2 witness: example scenario 2's inputs (ascending `rated` with a null
resume value). -/
theorem claim_C2_null_handling_witness :
    getQueryOrList ["rated", "_id"] [("rated", 1), ("_id", 1)]
      (some [("rated", BVal.vNull), ("_id", BVal.vOid "Y")])
      ["rated", "_id"] =
      .ok (specAltNullAware [("rated", 1), ("_id", 1)]
        [("rated", BVal.vNull), ("_id", BVal.vOid "Y")] ["rated", "_id"]) :=
  claim_C2_null_handling ["rated"] [("rated", 1), ("_id", 1)]
    [("rated", BVal.vNull), ("_id", BVal.vOid "Y")]
    (by decide) (by decide) (by decide)

/-- C3: when the caller's filter has a top-level `$or` (an array, per its
type), the compiled filter is `{$and: [originalFilter, generatedOr]}`;
with no top-level `$or`, the generated `$or` is placed directly alongside
the caller's top-level keys; the two disjunctions are never flattened into
one. -/
theorem claim_C3_or_merging (filter : FilterObj) (sortObj : KeySetSort)
    (sv : SkipValues) (limit : Option Int) (base : List String)
    (hkeys : sortObj.map Prod.fst = base ++ ["_id"])
    (hnd : (base ++ ["_id"]).Nodup) (hbase : base ≠ [])
    (hne : ∀ k ∈ base, k ≠ "") :
    (∀ l, jsLookup filter "$or" = some (Q.arr l) →
      getFilterQuery filter (some ⟨some sortObj, limit, some sv⟩) =
        .ok [("$and", Q.arr [Q.obj filter, Q.obj [("$or",
          Q.arr ((specAltNullAware sortObj sv (base ++ ["_id"])).map Q.obj))]])])
    ∧ (jsLookup filter "$or" = none →
      getFilterQuery filter (some ⟨some sortObj, limit, some sv⟩) =
        .ok (filter ++ [("$or",
          Q.arr ((specAltNullAware sortObj sv (base ++ ["_id"])).map Q.obj))])) := by
  have hmulti := getFilterQuery_multi filter sortObj sv limit base hkeys hnd
    hbase hne
  constructor
  · intro l hl
    rw [hmulti, if_pos (show jsTruthyQ (jsLookup filter "$or") = true from by
      rw [hl]; rfl)]
  · intro hl
    rw [hmulti, if_neg (show ¬ jsTruthyQ (jsLookup filter "$or") = true from by
      rw [hl]; simp [jsTruthyQ]),
      jsSet_of_lookup_none _ _ _ hl]

/-- C3 witness: example scenario 3's inputs (caller filter with a top-level
`$or`), and the no-`$or` case at the empty filter. -/
theorem claim_C3_or_merging_witness :
    getFilterQuery
      [("$or", Q.arr [Q.obj [("genres", Q.val (some (.vStr "Drama")))]])]
      (some ⟨some [("year", 1), ("_id", 1)], some 2,
             some [("year", .vInt 1915), ("_id", .vOid "B")]⟩) =
      .ok [("$and", Q.arr
        [Q.obj [("$or", Q.arr [Q.obj [("genres", Q.val (some (.vStr "Drama")))]])],
         Q.obj [("$or", Q.arr ((specAltNullAware [("year", 1), ("_id", 1)]
           [("year", .vInt 1915), ("_id", .vOid "B")]
           (["year"] ++ ["_id"])).map Q.obj))]])] :=
  (claim_C3_or_merging
    [("$or", Q.arr [Q.obj [("genres", Q.val (some (.vStr "Drama")))]])]
    [("year", 1), ("_id", 1)] [("year", .vInt 1915), ("_id", .vOid "B")]
    (some 2) ["year"] (by decide) (by decide) (by decide) (by decide)).1
    [Q.obj [("genres", Q.val (some (.vStr "Drama")))]] rfl

/-- C1: on a present resume point whose normalized sort has paths
`base ++ ["_id"]` (at least two keys, `_id` the unique last key) with all
skip values present and non-null, `getFilterQuery` generates the tie-break
disjunction exactly as the claim describes it recursively
(`specAltStrict`), and — under the document-store evaluation model, for
documents whose sort-key values occupy the same BSON type bracket as the
resume-point values — that disjunction selects exactly the documents that
sort strictly after the resume point. -/
theorem claim_C1_tie_break_disjunction (filter : FilterObj)
    (base : List String) (sortObj : KeySetSort) (sv : SkipValues)
    (limit : Option Int)
    (hkeys : sortObj.map Prod.fst = base ++ ["_id"])
    (hnd : (base ++ ["_id"]).Nodup) (hbase : base ≠ [])
    (hne : ∀ k ∈ base, k ≠ "" ∧ k ≠ "$or")
    (hvals : ∀ k ∈ base ++ ["_id"], isNullish (jsLookup sv k) = false)
    (hfor : jsLookup filter "$or" = none) :
    getFilterQuery filter (some ⟨some sortObj, limit, some sv⟩) =
      .ok (filter ++ [("$or",
        Q.arr ((specAltStrict sortObj sv (base ++ ["_id"])).map Q.obj))])
    ∧ ∀ doc : BDoc,
        (∀ k ∈ base ++ ["_id"], scalarSkipVal (svval sv k) = true ∧
          ∃ x, docKeyVal doc k = some x ∧
            bsonTypeRank x = bsonTypeRank (svval sv k)) →
        matchOrList doc
          ((specAltStrict sortObj sv (base ++ ["_id"])).map Q.obj) =
          seekAfter sortObj sv doc (base ++ ["_id"]) := by
  have hspec := specAltStrict_eq_nullAware sortObj sv (base ++ ["_id"]) hnd
    (fun k hk => by
      refine ⟨by simpa using hvals k hk, ?_⟩
      rcases List.mem_append.mp hk with hk' | hk'
      · exact (hne k hk').2
      · simp at hk'
        subst hk'
        decide)
  constructor
  · have hmulti := getFilterQuery_multi filter sortObj sv limit base hkeys hnd
      hbase (fun k hk => (hne k hk).1)
    rw [hspec, hmulti,
      if_neg (show ¬ jsTruthyQ (jsLookup filter "$or") = true from by
        rw [hfor]; simp [jsTruthyQ]),
      jsSet_of_lookup_none _ _ _ hfor]
  · intro doc hdoc
    refine matchOr_eq_seekAfter sortObj sv doc base hbase (fun k hk => ?_)
    refine ⟨?_, (hdoc k hk).1, isNullish_false_elim _ (hvals k hk),
      (hdoc k hk).2⟩
    rcases List.mem_append.mp hk with hk' | hk'
    · exact (hne k hk').2
    · simp at hk'
      subst hk'
      decide

/-- C1 witness: example scenario 1 — sort `{year: 1}`, resume
`{year: 1915, _id: B}` — for the construction, and a document sorting
after the resume point for the selection semantics. -/
theorem claim_C1_tie_break_disjunction_witness :
    getFilterQuery []
      (some ⟨some [("year", 1), ("_id", 1)], some 2,
             some [("year", .vInt 1915), ("_id", .vOid "B")]⟩) =
      .ok ([] ++ [("$or",
        Q.arr ((specAltStrict [("year", 1), ("_id", 1)]
          [("year", .vInt 1915), ("_id", .vOid "B")]
          (["year"] ++ ["_id"])).map Q.obj))])
    ∧ matchOrList [("year", .vInt 1920), ("_id", .vOid "C")]
        ((specAltStrict [("year", 1), ("_id", 1)]
          [("year", .vInt 1915), ("_id", .vOid "B")]
          (["year"] ++ ["_id"])).map Q.obj) =
      seekAfter [("year", 1), ("_id", 1)]
        [("year", .vInt 1915), ("_id", .vOid "B")]
        [("year", .vInt 1920), ("_id", .vOid "C")] (["year"] ++ ["_id"]) := by
  have h := claim_C1_tie_break_disjunction [] ["year"]
    [("year", 1), ("_id", 1)] [("year", .vInt 1915), ("_id", .vOid "B")]
    (some 2) (by decide) (by decide) (by decide) (by decide) (by decide) rfl
  refine ⟨h.1, h.2 [("year", .vInt 1920), ("_id", .vOid "C")] ?_⟩
  intro k hk
  simp only [List.cons_append, List.nil_append, List.mem_cons,
    List.not_mem_nil, or_false] at hk
  rcases hk with rfl | rfl
  · exact ⟨by decide, ⟨.vInt 1920, rfl, by decide⟩⟩
  · exact ⟨by decide, ⟨.vOid "C", rfl, by decide⟩⟩

/-- C5 counterexample: on an empty (hence short) document list,
`getSkipContent` returns `undefined`, but `getSkipToken` does *not*
"likewise return none under the same condition" — it throws (the
`undefined` skip content reaches `EJSON.stringify`/`cipher.update`, which
rejects it), so the claim's statement about `getSkipToken` is false. -/
theorem claim_C5_counterexample :
    getSkipContentImpl 10 [("_id", 1)] [] = .ok none
    ∧ getSkipTokenImpl cryptoOk (some "aes-192-cbc") (some "key") []
        10 [("_id", 1)] [] = .error .typeError :=
  ⟨rfl, rfl⟩

/-- C5 (amended): `getSkipContent` returns none exactly when the document
list is empty or shorter than the paginated limit — in particular a page
whose length equals the limit still yields a resume point — while
`getSkipToken` on an empty/short list throws a TypeError instead of
returning none. -/
theorem claim_C5_skip_content_condition (limit : Int) (sort : KeySetSort)
    (docs : List BDoc) (crypto : CryptoModel) (algorithm key : Option String)
    (iv : List Nat) :
    (getSkipContentImpl limit sort docs = .ok none ↔
      (docs.length = 0 ∨ (docs.length : Int) < limit))
    ∧ (∀ sv, ¬(docs.length = 0 ∨ (docs.length : Int) < limit) →
        getSkipValues sort (docs.getLastD []) = .ok sv →
        getSkipContentImpl limit sort docs = .ok (some ⟨sv, limit, sort⟩))
    ∧ ((docs.length = 0 ∨ (docs.length : Int) < limit) →
        getSkipTokenImpl crypto algorithm key iv limit sort docs =
          .error .typeError) :=
  ⟨getSkipContentImpl_none_iff limit sort docs,
   fun sv h1 h2 => getSkipContentImpl_full limit sort docs sv h1 h2,
   getSkipTokenImpl_short crypto algorithm key iv limit sort docs⟩

/-- C5 witness: a page of exactly the limit's length (2 of limit 2) still
issues a resume point (example scenario 4's boundary). -/
theorem claim_C5_skip_content_condition_witness :
    getSkipContentImpl 2 [("_id", 1)]
      [[("_id", .vInt 1)], [("_id", .vInt 2)]] =
      .ok (some ⟨[("_id", .vInt 2)], 2, [("_id", 1)]⟩) :=
  (claim_C5_skip_content_condition 2 [("_id", 1)]
    [[("_id", .vInt 1)], [("_id", .vInt 2)]] cryptoOk none none []).2.1
    [("_id", .vInt 2)] (by decide) rfl

/-- C6 counterexample: the claim says dot-path extraction treats dates as
terminal leaves rather than descending into them; the code descends
structurally, so for sort key `a.b` over a document where `a` is a date,
the issued skip value is `null` while the claim's described extraction
yields the date itself. -/
theorem claim_C6_counterexample :
    getSkipValues [("a.b", 1), ("_id", 1)]
      [("a", .vDate 5), ("_id", .vInt 1)] =
      .ok [("a.b", .vNull), ("_id", .vInt 1)]
    ∧ specTerminalExtract "a.b" [("a", .vDate 5), ("_id", .vInt 1)] =
      some (.vDate 5)
    ∧ BVal.vNull ≠ BVal.vDate 5 :=
  ⟨rfl, rfl, fun h => nomatch h⟩

/-- C6 (amended): an issued resume point's skipValues hold exactly one
entry per effective-sort field, in order, each the dot-path traversal of
the last document with missing/undefined results normalized to literal
null; property access *into* a semantically atomic value (date, ObjectId,
or any non-object primitive) yields undefined — hence null at the end of
the path — rather than the atomic value itself, and deeper descent or
descent through a missing/null intermediate raises a TypeError (so no
resume point is produced). -/
theorem claim_C6_skip_value_extraction (limit : Int) (sort : KeySetSort)
    (docs : List BDoc) (sc : SkipContentOut)
    (hnd : (sort.map Prod.fst).Nodup)
    (h : getSkipContentImpl limit sort docs = .ok (some sc)) :
    sc.skipValues.map Prod.fst = sort.map Prod.fst
    ∧ (∀ p ∈ sort, ∃ v,
        getDocumentSkipValue p.1 (some (.vObj (docs.getLastD []))) = .ok v ∧
        jsLookup sc.skipValues p.1 = some (jsNullCoalesce v))
    ∧ (∀ (b : BVal) (k : String) (ks : List String),
        scalarSkipVal b = true → b ≠ .vNull →
        goSkipValue (k :: ks) (some b) =
          if ks.isEmpty then .ok none else .error .typeError)
    ∧ (∀ (k : String) (ks : List String),
        goSkipValue (k :: ks) none = .error .typeError) := by
  by_cases hshort : docs.length = 0 ∨ (docs.length : Int) < limit
  · rw [show getSkipContentImpl limit sort docs = pure none from by
      rw [getSkipContentImpl, if_pos hshort]] at h
    cases h
  · rw [getSkipContentImpl, if_neg hshort] at h
    rcases hsv : getSkipValues sort (docs.getLastD []) with e | sv
    · simp only [List.getLastD_eq_getLast?] at hsv
      simp [hsv, Bind.bind, Except.bind] at h
    · simp only [Bind.bind, Except.bind] at h
      rw [hsv] at h
      simp only [Pure.pure, Except.pure, Except.ok.injEq,
        Option.some.injEq] at h
      subst h
      rcases getSkipValues_char sort (docs.getLastD []) sv hnd hsv with
        ⟨hkeys, hvals⟩
      exact ⟨hkeys, hvals,
        fun b k ks hb hnn => goSkipValue_atomic b hb hnn k ks,
        fun k ks => goSkipValue_none k ks⟩

/-- C6 witness: a two-key sort over a one-document page — one entry per
sort field, in order. -/
theorem claim_C6_skip_value_extraction_witness :
    (SkipContentOut.mk [("a", .vInt 3), ("_id", .vInt 7)] 1
        [("a", 1), ("_id", 1)]).skipValues.map Prod.fst =
      ([("a", 1), ("_id", 1)] : KeySetSort).map Prod.fst :=
  (claim_C6_skip_value_extraction 1 [("a", 1), ("_id", 1)]
    [[("a", .vInt 3), ("_id", .vInt 7)]]
    ⟨[("a", .vInt 3), ("_id", .vInt 7)], 1, [("a", 1), ("_id", 1)]⟩
    (by decide) rfl).1

/-- C7: for a skip content whose values are scalars (strings, numbers,
booleans, nulls, dates, ObjectIds), and any cipher/JSON-text library
behavior satisfying its round-trip contract at this content (the cipher is
`node:crypto`'s AES, external to the repository), the token produced by
`encryptSkipContent` has the wire form
`<base64url(iv)>.<base64url(ciphertext)>` — the IV component being exactly
the random bytes drawn by this call — and `decryptSkipContent` inverts it,
reproducing the sort, limit and skip values with their types preserved
(the extended-JSON value mapping is implemented and inverted concretely). -/
theorem claim_C7_token_roundtrip (crypto : CryptoModel)
    (jsonParse : String → Option Json) (algorithm key : Option String)
    (iv ct : List Nat) (sc : SkipContentOut)
    (hscal : ∀ p ∈ sc.skipValues, scalarSkipVal p.2 = true)
    (hiv : ∀ b ∈ iv, b < 256) (hct : ∀ b ∈ ct, b < 256)
    (henc : crypto.enc algorithm key iv (jsonRender (ejsonContent sc)) =
      .ok ct)
    (hdec : crypto.dec algorithm key iv ct =
      .ok (jsonRender (ejsonContent sc)))
    (hparse : jsonParse (jsonRender (ejsonContent sc)) =
      some (ejsonContent sc)) :
    encryptSkipContent crypto algorithm key iv (some sc) =
      .ok (String.mk (b64Encode iv) ++ "." ++ String.mk (b64Encode ct))
    ∧ decryptSkipContent crypto jsonParse algorithm key
        (String.mk (b64Encode iv) ++ "." ++ String.mk (b64Encode ct)) =
      .ok (rawOf sc) := by
  constructor
  · simp [encryptSkipContent, henc, Bind.bind, Except.bind, Pure.pure,
      Except.pure]
  · have hdata : (String.mk (b64Encode iv) ++ "." ++
        String.mk (b64Encode ct)).data =
        b64Encode iv ++ '.' :: b64Encode ct := by
      rw [String.data_append, String.data_append]
      simp
    rw [decryptSkipContent, hdata,
      splitOnDot_append _ _ (b64Encode_no_dot iv),
      splitOnDot_no_dot _ (b64Encode_no_dot ct)]
    simp only [List.headD_cons, List.getElem?_cons_succ,
      List.getElem?_cons_zero]
    rw [show (b64DecodeLenient (b64Encode iv)) = iv from by
        rw [b64DecodeLenient, b64_roundtrip iv hiv]; rfl,
      show (b64DecodeLenient (b64Encode ct)) = ct from by
        rw [b64DecodeLenient, b64_roundtrip ct hct]; rfl,
      hdec]
    simp only [Bind.bind, Except.bind, hparse]
    rw [jsonToRaw_ejsonContent sc hscal]
    rfl

set_option maxRecDepth 4096 in
/-- C7 witness: a concrete skip content with an ObjectId, a date, a string
and a number, a 2-byte IV, and library stand-ins satisfying the contracts
at this content. -/
theorem claim_C7_token_roundtrip_witness :
    encryptSkipContent cryptoOk (some "aes-192-cbc") (some "key") [0, 255]
      (some demoContent) =
      .ok (String.mk (b64Encode [0, 255]) ++ "." ++
        String.mk (b64Encode cryptoOkCt)) ∧
    decryptSkipContent cryptoOk
      (jsonParseOf (ejsonContent demoContent))
      (some "aes-192-cbc") (some "key")
      (String.mk (b64Encode [0, 255]) ++ "." ++
        String.mk (b64Encode cryptoOkCt)) =
      .ok (rawOf demoContent) :=
  claim_C7_token_roundtrip cryptoOk (jsonParseOf (ejsonContent demoContent))
    (some "aes-192-cbc") (some "key") [0, 255] cryptoOkCt demoContent
    (by decide) (by decide) (by decide) rfl rfl
    (by rw [jsonParseOf, if_pos rfl])

/-- C8 counterexample: the claim says the embedded limit is preferred over
the caller's on decode; the source computes
`options.limit ?? skipTokenContent?.limit ?? …`, so with a caller limit of
5 and an embedded limit of 7 the paginated limit is 5, not 7. -/
theorem claim_C8_counterexample :
    (getPaginatedQuery cryptoOk jsonParseNone
        ⟨some 10, none, some "aes-192-cbc"⟩ []
        (some (.content ⟨some [("_id", 1)], some 7, some [("_id", .vInt 1)]⟩))
        ⟨some 5, none⟩).map (fun pq => pq.paginatedLimit) = .ok 5
    ∧ (5 : Int) ≠ 7 :=
  ⟨rfl, by decide⟩

/-- C8 (amended): on decode the embedded *sort* is preferred over the
caller's (`skipTokenContent?.sort ?? getSortQuery(options.sort)`), but the
*limit* prefers the caller's `options.limit` first, falling back to the
embedded limit and then to the configured default (10). -/
theorem claim_C8_embedded_preference (crypto : CryptoModel)
    (jsonParse : String → Option Json) (cfg : KSPOptions)
    (filter pf : FilterObj) (rc : RawSkipContent)
    (options : KeySetFindOptions)
    (h : getFilterQuery filter (some rc) = .ok pf) :
    (getPaginatedQuery crypto jsonParse cfg filter (some (.content rc))
        options).map (fun pq => pq.paginatedSort) =
      .ok ((rc.sort).getD (getSortQuery (options.sort.getD [])))
    ∧ (getPaginatedQuery crypto jsonParse cfg filter (some (.content rc))
        options).map (fun pq => pq.paginatedLimit) =
      .ok (options.limit.getD ((rc.limit).getD (cfg.defaultLimit.getD 10))) := by
  constructor <;>
    simp [getPaginatedQuery, h, Bind.bind, Except.bind, Pure.pure,
      Except.pure, Except.map, Option.bind]

/-- C8 witness: embedded sort `{_id: 1}` wins over the caller's
`{year: 1}`; caller limit 5 wins over embedded 7. -/
theorem claim_C8_embedded_preference_witness :
    (getPaginatedQuery cryptoOk jsonParseNone
        ⟨some 10, none, some "aes-192-cbc"⟩ []
        (some (.content ⟨some [("_id", 1)], some 7, some [("_id", .vInt 1)]⟩))
        ⟨some 5, some [("year", 1)]⟩).map (fun pq => pq.paginatedSort) =
      .ok [("_id", 1)]
    ∧ (getPaginatedQuery cryptoOk jsonParseNone
        ⟨some 10, none, some "aes-192-cbc"⟩ []
        (some (.content ⟨some [("_id", 1)], some 7, some [("_id", .vInt 1)]⟩))
        ⟨some 5, some [("year", 1)]⟩).map (fun pq => pq.paginatedLimit) =
      .ok 5 :=
  claim_C8_embedded_preference cryptoOk jsonParseNone
    ⟨some 10, none, some "aes-192-cbc"⟩ []
    [("_id", Q.obj [("$gt", Q.val (some (.vInt 1)))])]
    ⟨some [("_id", 1)], some 7, some [("_id", .vInt 1)]⟩
    ⟨some 5, some [("year", 1)]⟩ rfl

/-- C9 counterexample: a structurally invalid resume-point object (its
`skipValues` missing) together with an `_id`-only embedded sort and a
caller filter already constraining `_id` makes `getPaginatedQuery` succeed
silently, returning the caller's (first-page) filter — the claim says a
present-but-invalid resume point always surfaces an error. -/
theorem claim_C9_counterexample :
    (getPaginatedQuery cryptoOk jsonParseNone
        ⟨some 10, none, some "aes-192-cbc"⟩
        [("_id", Q.val (some (.vInt 5)))]
        (some (.content ⟨some [("_id", 1)], some 10, none⟩))
        ⟨none, none⟩).map (fun pq => pq.paginatedFilter) =
      .ok [("_id", Q.val (some (.vInt 5)))] := rfl

/-- C9 (amended): a token that fails decryption/deserialization propagates
its error out of `getPaginatedQuery`; a resume-point object missing its
`sort` throws; one missing its `skipValues` throws whenever the sort has a
non-`_id` key, and also in the `_id`-only case when the caller's filter
does not (truthily) constrain `_id` — but in the `_id`-only case with a
truthy `_id` filter constraint the resume point is never read and the
caller's filter is returned without error (see the counterexample). -/
theorem claim_C9_invalid_resume_errors (crypto : CryptoModel)
    (jsonParse : String → Option Json) (cfg : KSPOptions) (filter : FilterObj)
    (options : KeySetFindOptions) (tok : String) (e : JsError)
    (rc : RawSkipContent) (sortObj : KeySetSort) (base : List String)
    (limit : Option Int) (d : Int) :
    (decryptSkipContent crypto jsonParse cfg.encryptionAlgorithm
        cfg.encryptionKey tok = .error e →
      getPaginatedQuery crypto jsonParse cfg filter (some (.tok tok))
        options = .error e)
    ∧ (rc.sort = none →
      getPaginatedQuery crypto jsonParse cfg filter (some (.content rc))
        options = .error .typeError)
    ∧ (sortObj.map Prod.fst = base ++ ["_id"] → (base ++ ["_id"]).Nodup →
       base ≠ [] →
      getPaginatedQuery crypto jsonParse cfg filter
        (some (.content ⟨some sortObj, limit, none⟩)) options =
        .error .typeError)
    ∧ (jsTruthyQ (jsLookup filter "_id") = false →
      getPaginatedQuery crypto jsonParse cfg filter
        (some (.content ⟨some [("_id", d)], limit, none⟩)) options =
        .error .typeError) := by
  refine ⟨?_, ?_, ?_, ?_⟩
  · intro hd
    simp [getPaginatedQuery, hd, Bind.bind, Except.bind]
  · intro hs
    have hf : getFilterQuery filter (some rc) = .error .typeError := by
      simp [getFilterQuery, hs, Bind.bind, Except.bind]
    simp [getPaginatedQuery, hf, Bind.bind, Except.bind, Pure.pure,
      Except.pure]
  · intro h1 h2 h3
    have hf := getFilterQuery_noSkipValues filter sortObj limit base h1 h2 h3
    simp [getPaginatedQuery, hf, Bind.bind, Except.bind, Pure.pure,
      Except.pure]
  · intro hfid
    have hf := getFilterQuery_idOnly_noSkipValues filter limit d hfid
    simp [getPaginatedQuery, hf, Bind.bind, Except.bind, Pure.pure,
      Except.pure]

/-- C9 witness: a failing decryption (wrong key / corrupted token) and a
resume point missing its sort both error out. -/
theorem claim_C9_invalid_resume_errors_witness :
    getPaginatedQuery cryptoFail jsonParseNone
      ⟨some 10, some "key", some "aes-192-cbc"⟩ []
      (some (.tok "bogus.token")) ⟨none, none⟩ = .error .cryptoError
    ∧ getPaginatedQuery cryptoFail jsonParseNone
      ⟨some 10, some "key", some "aes-192-cbc"⟩ []
      (some (.content ⟨none, some 10, none⟩)) ⟨none, none⟩ =
      .error .typeError :=
  ⟨(claim_C9_invalid_resume_errors cryptoFail jsonParseNone
      ⟨some 10, some "key", some "aes-192-cbc"⟩ [] ⟨none, none⟩
      "bogus.token" .cryptoError ⟨none, some 10, none⟩ [] [] none 1).1 rfl,
   (claim_C9_invalid_resume_errors cryptoFail jsonParseNone
      ⟨some 10, some "key", some "aes-192-cbc"⟩ [] ⟨none, none⟩
      "bogus.token" .cryptoError ⟨none, some 10, none⟩ [] [] none 1).2.1 rfl⟩

end KeySet
